import Mathlib

/-!
# Verification of the in-meeting media agent core

Shallow embedding of the speaker-attribution, stream-reconciliation,
capture-and-relay and output-scheduling subsystems of the agent, together
with proofs of the behavioural properties stated in the design document.

Conventions:
* JS numbers used as timestamps are embedded as `Int` (all arithmetic on
  them in the source is integral).
* JS `Map` objects and plain-object dictionaries used only for keyed lookup
  are embedded as functions `String → Option _` or as insertion-ordered
  association lists where iteration order matters.
* JS truthiness on strings (`if (s)`) is `s ≠ ""` on a present value.
-/

/-! ## Speaker attribution state machine

Embeds `ParticipantSpeakingStateMachine` (`addSample`) together with the
per-participant interval list that `DominantSpeakerManager.addSpeechIntervalStart`
/ `addSpeechIntervalEnd` append to.  The machine is per-participant, so the
participant id is left implicit and the interval list is carried alongside. -/

/-- A voice-activity sample `{isSpeaking, timestamp}` as fed to
`ParticipantSpeakingStateMachine.addSample`. -/
structure VoiceSample where
  isSpeaking : Bool
  timestamp : Int
deriving DecidableEq, Repr

/-- The two states of the per-participant speaking state machine. -/
inductive SpeakState
  | notSpeaking
  | speaking
deriving DecidableEq, Repr

/-- The two kinds of speech-interval events (`'start'` / `'end'`). -/
inductive IntervalType
  | start
  | stop
deriving DecidableEq, Repr

/-- One entry of a participant's `speechIntervalsPerParticipant` list:
`{type, timestampMs}`. -/
structure SpeechInterval where
  type : IntervalType
  timestampMs : Int
deriving DecidableEq, Repr

/-- State of one `ParticipantSpeakingStateMachine`, together with that
participant's interval list in the `DominantSpeakerManager`. -/
structure PSM where
  state : SpeakState
  samples : List VoiceSample
  intervals : List SpeechInterval
deriving DecidableEq, Repr

/-- Initial machine: state `'NOT_SPEAKING'`, no samples, no intervals. -/
def PSM.init : PSM := ⟨.notSpeaking, [], []⟩

/-- The last `n` elements of a list (JS `slice(-n)`, returning the whole
list when it is shorter than `n`). -/
def lastN (n : Nat) (l : List α) : List α := l.drop (l.length - n)

/-- `ParticipantSpeakingStateMachine.addSample`: push the sample, cap the
window at 10 (dropping the oldest), and once 5 samples exist set the state
from the last 5 samples (`> 3` of them speaking ⇒ `SPEAKING`), appending a
speech-interval `start` on `NOT_SPEAKING → SPEAKING` at the first-of-5
timestamp and an `end` on `SPEAKING → NOT_SPEAKING` at that timestamp
minus 100. -/
def PSM.addSample (m : PSM) (s : VoiceSample) : PSM :=
  let pushed := m.samples ++ [s]
  let samples := if pushed.length > 10 then pushed.tail else pushed
  let lastFive := lastN 5 samples
  if lastFive.length < 5 then
    { m with samples := samples }
  else
    let majorityOfLastFiveSamplesWereTrue := (lastFive.filter (·.isSpeaking)).length > 3
    let firstOfLastFiveSamplesTimestamp := (lastFive.headD ⟨false, 0⟩).timestamp
    let state' := if majorityOfLastFiveSamplesWereTrue then SpeakState.speaking
                  else SpeakState.notSpeaking
    let intervals :=
      if m.state = .notSpeaking ∧ state' = .speaking then
        m.intervals ++ [⟨.start, firstOfLastFiveSamplesTimestamp⟩]
      else if m.state = .speaking ∧ state' = .notSpeaking then
        m.intervals ++ [⟨.stop, firstOfLastFiveSamplesTimestamp - 100⟩]
      else
        m.intervals
    { state := state', samples := samples, intervals := intervals }

/-- Feed a sequence of samples to a fresh machine. -/
def runPSM (xs : List VoiceSample) : PSM := xs.foldl PSM.addSample PSM.init

theorem runPSM_append (xs : List VoiceSample) (s : VoiceSample) :
    runPSM (xs ++ [s]) = (runPSM xs).addSample s := by
  simp [runPSM, List.foldl_append]

theorem lastN_length (n : Nat) (l : List α) : (lastN n l).length = min n l.length := by
  unfold lastN
  rw [List.length_drop]
  omega

theorem lastN_of_le (n : Nat) (l : List α) (h : l.length ≤ n) : lastN n l = l := by
  unfold lastN
  have h0 : l.length - n = 0 := by omega
  rw [h0, List.drop_zero]

theorem lastN_append_singleton (n : Nat) (hn : 1 ≤ n) (l : List α) (a : α) :
    lastN n (l ++ [a]) = lastN (n - 1) l ++ [a] := by
  unfold lastN
  rw [List.length_append, List.length_singleton,
    List.drop_append_of_le_length (by omega)]
  congr 2
  omega

theorem lastN_lastN (m n : Nat) (h : n ≤ m) (l : List α) :
    lastN n (lastN m l) = lastN n l := by
  unfold lastN
  rw [List.drop_drop, List.length_drop]
  congr 1
  omega

theorem tail_lastN (n : Nat) (l : List α) (h : n < l.length) :
    (lastN (n + 1) l).tail = lastN n l := by
  unfold lastN
  rw [List.tail_drop]
  congr 1
  omega

/-- The new sample window after a push: append, then drop the oldest when
the capacity 10 is exceeded.  Both branches of `addSample` store this. -/
theorem addSample_samples (m : PSM) (s : VoiceSample) :
    (m.addSample s).samples =
      if (m.samples ++ [s]).length > 10 then (m.samples ++ [s]).tail
      else m.samples ++ [s] := by
  simp only [PSM.addSample]
  split <;> split <;> rfl

/-- Pushing onto a 10-capped window of `xs` yields the 10-capped window of
`xs ++ [s]`. -/
theorem cap_lastN (xs : List VoiceSample) (s : VoiceSample) :
    (if (lastN 10 xs ++ [s]).length > 10 then (lastN 10 xs ++ [s]).tail
     else lastN 10 xs ++ [s]) = lastN 10 (xs ++ [s]) := by
  rcases le_or_lt xs.length 9 with h | h
  · rw [if_neg (by rw [List.length_append, List.length_singleton, lastN_length]; omega)]
    rw [lastN_of_le 10 xs (by omega), lastN_append_singleton 10 (by omega),
      lastN_of_le 9 xs (by omega)]
  · rw [if_pos (by rw [List.length_append, List.length_singleton, lastN_length]; omega)]
    rw [List.tail_append_singleton_of_ne_nil
        (by intro hnil; have := lastN_length 10 xs; rw [hnil] at this; simp at this; omega)]
    have h10 : lastN 10 xs = lastN (9 + 1) xs := by norm_num
    rw [h10, tail_lastN 9 xs (by omega), lastN_append_singleton 10 (by omega)]

/-- The sample window of the machine is always the last 10 samples fed. -/
theorem runPSM_samples (xs : List VoiceSample) : (runPSM xs).samples = lastN 10 xs := by
  induction xs using List.reverseRecOn with
  | nil => simp [runPSM, PSM.init, lastN]
  | append_singleton l a ih =>
      rw [runPSM_append, addSample_samples, ih, cap_lastN]

/-- Characterization of `addSample` when the post-push window has at least
5 samples (the transition-evaluating branch). -/
theorem addSample_of_five (m : PSM) (s : VoiceSample)
    (w : List VoiceSample)
    (hw : w = if (m.samples ++ [s]).length > 10 then (m.samples ++ [s]).tail
              else m.samples ++ [s])
    (h5 : ¬ (lastN 5 w).length < 5) :
    m.addSample s =
      { state :=
          if 3 < ((lastN 5 w).filter (·.isSpeaking)).length
          then SpeakState.speaking else SpeakState.notSpeaking,
        samples := w,
        intervals :=
          if m.state = .notSpeaking ∧
              (if 3 < ((lastN 5 w).filter (·.isSpeaking)).length
               then SpeakState.speaking else SpeakState.notSpeaking) = .speaking then
            m.intervals ++ [⟨.start, ((lastN 5 w).headD ⟨false, 0⟩).timestamp⟩]
          else if m.state = .speaking ∧
              (if 3 < ((lastN 5 w).filter (·.isSpeaking)).length
               then SpeakState.speaking else SpeakState.notSpeaking) = .notSpeaking then
            m.intervals ++ [⟨.stop, ((lastN 5 w).headD ⟨false, 0⟩).timestamp - 100⟩]
          else m.intervals } := by
  subst hw
  simp only [PSM.addSample]
  rw [if_neg h5]

/-- Characterization of `addSample` when fewer than 5 samples exist after
the push: only the window changes. -/
theorem addSample_of_short (m : PSM) (s : VoiceSample)
    (w : List VoiceSample)
    (hw : w = if (m.samples ++ [s]).length > 10 then (m.samples ++ [s]).tail
              else m.samples ++ [s])
    (h5 : (lastN 5 w).length < 5) :
    m.addSample s = { m with samples := w } := by
  subst hw
  simp only [PSM.addSample]
  rw [if_pos h5]

/-- Before 5 samples have been fed, the machine has performed no transition:
the state is still `NOT_SPEAKING` and no interval has been appended. -/
theorem runPSM_short (xs : List VoiceSample) (h : xs.length < 5) :
    (runPSM xs).state = .notSpeaking ∧ (runPSM xs).intervals = [] := by
  induction xs using List.reverseRecOn with
  | nil => simp [runPSM, PSM.init]
  | append_singleton l a ih =>
      have hl : l.length < 5 := by simp at h; omega
      obtain ⟨hs, hi⟩ := ih hl
      rw [runPSM_append,
        addSample_of_short (runPSM l) a (lastN 10 (l ++ [a]))
          (by rw [runPSM_samples]; exact (cap_lastN l a).symm)
          (by rw [lastN_lastN 10 5 (by omega), lastN_length]
              simp at h ⊢
              omega)]
      exact ⟨hs, hi⟩

/-- Step characterization of a run once at least 5 samples have been fed. -/
theorem runPSM_step_five (xs : List VoiceSample) (s : VoiceSample)
    (h5 : 5 ≤ xs.length + 1) :
    runPSM (xs ++ [s]) =
      { state :=
          if 3 < ((lastN 5 (xs ++ [s])).filter (·.isSpeaking)).length
          then SpeakState.speaking else SpeakState.notSpeaking,
        samples := lastN 10 (xs ++ [s]),
        intervals :=
          if (runPSM xs).state = .notSpeaking ∧
              (if 3 < ((lastN 5 (xs ++ [s])).filter (·.isSpeaking)).length
               then SpeakState.speaking else SpeakState.notSpeaking) = .speaking then
            (runPSM xs).intervals ++
              [⟨.start, ((lastN 5 (xs ++ [s])).headD ⟨false, 0⟩).timestamp⟩]
          else if (runPSM xs).state = .speaking ∧
              (if 3 < ((lastN 5 (xs ++ [s])).filter (·.isSpeaking)).length
               then SpeakState.speaking else SpeakState.notSpeaking) = .notSpeaking then
            (runPSM xs).intervals ++
              [⟨.stop, ((lastN 5 (xs ++ [s])).headD ⟨false, 0⟩).timestamp - 100⟩]
          else (runPSM xs).intervals } := by
  rw [runPSM_append,
    addSample_of_five (runPSM xs) s (lastN 10 (xs ++ [s]))
      (by rw [runPSM_samples]; exact (cap_lastN xs s).symm)
      (by rw [lastN_lastN 10 5 (by omega), lastN_length]
          simp
          omega)]
  rw [lastN_lastN 10 5 (by omega)]

/-- C1: for every participant speaking state machine (initial state
`NOT_SPEAKING`) and every sequence of voice-activity samples: the window
holds the last 10 samples (oldest dropped); no transition is evaluated
until at least 5 samples exist; after each sample (once 5 exist) the state
is `SPEAKING` exactly when at least 4 of the most recent 5 samples are
`true`; on `NOT_SPEAKING → SPEAKING` a start interval is appended at the
timestamp of the first of those 5 samples; on `SPEAKING → NOT_SPEAKING` an
end interval is appended at that timestamp minus 100 ms; and no interval
is appended when the target state equals the current state. -/
theorem C1_speaking_state_machine (xs : List VoiceSample) (s : VoiceSample) :
    ((runPSM (xs ++ [s])).samples = lastN 10 (xs ++ [s])) ∧
    (xs.length + 1 < 5 →
      (runPSM (xs ++ [s])).state = .notSpeaking ∧ (runPSM (xs ++ [s])).intervals = []) ∧
    (5 ≤ xs.length + 1 →
      ((runPSM (xs ++ [s])).state = .speaking ↔
        4 ≤ ((lastN 5 (xs ++ [s])).filter (·.isSpeaking)).length) ∧
      ((runPSM xs).state = .notSpeaking → (runPSM (xs ++ [s])).state = .speaking →
        (runPSM (xs ++ [s])).intervals = (runPSM xs).intervals ++
          [⟨.start, ((lastN 5 (xs ++ [s])).headD ⟨false, 0⟩).timestamp⟩]) ∧
      ((runPSM xs).state = .speaking → (runPSM (xs ++ [s])).state = .notSpeaking →
        (runPSM (xs ++ [s])).intervals = (runPSM xs).intervals ++
          [⟨.stop, ((lastN 5 (xs ++ [s])).headD ⟨false, 0⟩).timestamp - 100⟩])) ∧
    ((runPSM (xs ++ [s])).state = (runPSM xs).state →
      (runPSM (xs ++ [s])).intervals = (runPSM xs).intervals) := by
  by_cases h5 : xs.length + 1 < 5
  · have hstep : runPSM (xs ++ [s]) = { runPSM xs with samples := lastN 10 (xs ++ [s]) } := by
      rw [runPSM_append]
      exact addSample_of_short (runPSM xs) s (lastN 10 (xs ++ [s]))
        (by rw [runPSM_samples]; exact (cap_lastN xs s).symm)
        (by rw [lastN_lastN 10 5 (by omega), lastN_length]; simp; omega)
    obtain ⟨hs0, hi0⟩ := runPSM_short xs (by omega)
    refine ⟨runPSM_samples _, fun _ => ?_, fun hge => absurd hge (by omega), fun _ => ?_⟩
    · rw [hstep]
      exact ⟨hs0, hi0⟩
    · rw [hstep]
  · have hstep := runPSM_step_five xs s (by omega)
    refine ⟨runPSM_samples _, fun hlt => absurd hlt h5, fun _ => ⟨?_, ?_, ?_⟩, ?_⟩
    · rw [hstep]
      by_cases hcnt : 3 < ((lastN 5 (xs ++ [s])).filter (·.isSpeaking)).length
      · simp only [if_pos hcnt]
        exact ⟨fun _ => by omega, fun _ => trivial⟩
      · simp only [if_neg hcnt]
        exact ⟨fun hcontra => by simp at hcontra, fun hcount => absurd hcount (by omega)⟩
    · intro hns hsp
      rw [hstep] at hsp ⊢
      by_cases hcnt : 3 < ((lastN 5 (xs ++ [s])).filter (·.isSpeaking)).length
      · simp only [if_pos hcnt]
        rw [if_pos ⟨hns, trivial⟩]
      · simp only [if_neg hcnt] at hsp
        simp at hsp
    · intro hsp hns
      rw [hstep] at hns ⊢
      by_cases hcnt : 3 < ((lastN 5 (xs ++ [s])).filter (·.isSpeaking)).length
      · simp only [if_pos hcnt] at hns
        simp at hns
      · simp only [if_neg hcnt]
        rw [if_neg (by rintro ⟨h1, -⟩; rw [hsp] at h1; simp at h1), if_pos ⟨hsp, trivial⟩]
    · intro hsame
      rw [hstep] at hsame ⊢
      by_cases hcnt : 3 < ((lastN 5 (xs ++ [s])).filter (·.isSpeaking)).length
      · simp only [if_pos hcnt] at hsame ⊢
        rw [if_neg (by rintro ⟨h1, -⟩; rw [← hsame] at h1; simp at h1)]
        rw [if_neg (by rintro ⟨-, h2⟩; simp at h2)]
      · simp only [if_neg hcnt] at hsame ⊢
        rw [if_neg (by rintro ⟨-, h2⟩; simp at h2)]
        rw [if_neg (by rintro ⟨h1, -⟩; rw [← hsame] at h1; simp at h1)]

/-- Witness for C1: the design document scenario — samples
`[true,true,true,false]` then `true` at t = 0..400 ms drive the machine to
`SPEAKING` with a start interval recorded at t = 0. -/
theorem C1_speaking_state_machine_witness :
    (runPSM ([⟨true, 0⟩, ⟨true, 100⟩, ⟨true, 200⟩, ⟨false, 300⟩] ++ [⟨true, 400⟩])).state
        = .speaking ∧
    (runPSM ([⟨true, 0⟩, ⟨true, 100⟩, ⟨true, 200⟩, ⟨false, 300⟩] ++ [⟨true, 400⟩])).intervals
        = [⟨.start, 0⟩] := by
  obtain ⟨-, -, h5, -⟩ :=
    C1_speaking_state_machine [⟨true, 0⟩, ⟨true, 100⟩, ⟨true, 200⟩, ⟨false, 300⟩] ⟨true, 400⟩
  obtain ⟨hiff, hstart, -⟩ := h5 (by decide)
  have hstate := hiff.mpr (by decide)
  refine ⟨hstate, ?_⟩
  rw [hstart (by decide) hstate]
  decide

/-! ## Interval-based speaker attribution query

Embeds `DominantSpeakerManager.getLastSpeakerIdForTimestampMs` and
`DominantSpeakerManager.getSpeakerIdForTimestampMsUsingSpeechIntervals`.
`speechIntervalsPerParticipant` is a plain JS object; `Object.entries`
iterates it in key-insertion order, embedded as an association list. -/

/-- One `captionAudioTimes` entry: `{timestampMs, speakerId}`. -/
structure CaptionAudioTime where
  timestampMs : Int
  speakerId : String
deriving DecidableEq, Repr

/-- The attribution-relevant state of `DominantSpeakerManager`. -/
structure DominantSpeakerManager where
  captionAudioTimes : List CaptionAudioTime
  speechIntervalsPerParticipant : List (String × List SpeechInterval)
deriving DecidableEq, Repr

/-- `getLastSpeakerIdForTimestampMs`: among caption audio times at or
before the timestamp, return the speaker of the one with the highest
timestamp (JS `reduce`, first element as accumulator, keeping the earlier
entry on ties). -/
def getLastSpeakerIdForTimestampMs (d : DominantSpeakerManager) (timestampMs : Int) :
    Option String :=
  let captionAudioTimesBeforeTimestampMs :=
    d.captionAudioTimes.filter (·.timestampMs ≤ timestampMs)
  match captionAudioTimesBeforeTimestampMs with
  | [] => none
  | c :: cs =>
      some ((cs.foldl (fun max c2 => if c2.timestampMs > max.timestampMs then c2 else max)
        c).speakerId)

/-- The per-participant scan of
`getSpeakerIdForTimestampMsUsingSpeechIntervals`: walk the interval events
up to (and not past) the query timestamp, tracking `isCurrentlySpeaking`
and `timestampMsOfLastStart`. -/
def scanIntervals (timestampMs : Int) (intervals : List SpeechInterval) :
    Bool × Option Int :=
  (intervals.takeWhile (·.timestampMs ≤ timestampMs)).foldl
    (fun acc interval =>
      match interval.type with
      | .start => (true, some interval.timestampMs)
      | .stop => (false, acc.2))
    (false, none)

/-- One element of the `speakersAtTimestamp` array. -/
structure SpeakerAt where
  speakerId : String
  timestampMsOfLastStart : Option Int
deriving DecidableEq, Repr

/-- The `speakersAtTimestamp` array: participants whose scan ends in the
speaking state, in participant-entry order. -/
def speakersAtTimestamp (d : DominantSpeakerManager) (timestampMs : Int) :
    List SpeakerAt :=
  d.speechIntervalsPerParticipant.filterMap (fun p =>
    let scanned := scanIntervals timestampMs p.2
    if scanned.1 then some ⟨p.1, scanned.2⟩ else none)

/-- `getSpeakerIdForTimestampMsUsingSpeechIntervals`.  The tie-break
`reduce`s are JS reduces with the first element as accumulator; a `null`
`timestampMsOfLastStart` compared with `<` coerces to `0` in JS, which
`Option.getD 0` mirrors (it is in fact never `null` for a speaking
participant).  The caption tie-break is guarded by JS truthiness of the
returned speaker id, so an empty-string id never wins it. -/
def getSpeakerIdForTimestampMsUsingSpeechIntervals
    (d : DominantSpeakerManager) (timestampMs : Int) : Option String :=
  let speakers := speakersAtTimestamp d timestampMs
  if speakers.length = 0 then none
  else if speakers.length = 1 then some ((speakers.headD ⟨"", none⟩).speakerId)
  else
    let captionResult :=
      if 0 < d.captionAudioTimes.length then
        match getLastSpeakerIdForTimestampMs d timestampMs with
        | some p =>
            if p ≠ "" ∧ speakers.any (fun s => s.speakerId == p) then some p else none
        | none => none
      else none
    match captionResult with
    | some p => some p
    | none =>
        match speakers with
        | [] => none
        | sp :: rest =>
            some ((rest.foldl
              (fun min s2 =>
                if s2.timestampMsOfLastStart.getD 0 < min.timestampMsOfLastStart.getD 0
                then s2 else min) sp).speakerId)

/-- JS `reduce` picking the maximum of an integer key (strict `>`, keeping
the earlier element on ties) yields an element of the list whose key
bounds every other element's key. -/
theorem foldl_max_by {α : Type} (key : α → Int) (a : α) (l : List α) :
    (l.foldl (fun max x => if key x > key max then x else max) a) ∈ a :: l ∧
    ∀ x ∈ a :: l, key x ≤ key (l.foldl (fun max x => if key x > key max then x else max) a) := by
  induction l generalizing a with
  | nil => simp
  | cons b t ih =>
      simp only [List.foldl_cons]
      obtain ⟨hmem, hbound⟩ := ih (if key b > key a then b else a)
      refine ⟨?_, ?_⟩
      · rcases List.mem_cons.mp hmem with h | h
        · rw [h]
          split <;> simp
        · simp [h]
      · intro x hx
        have hres := hbound _ (List.mem_cons_self _ _)
        rcases List.mem_cons.mp hx with h | h
        · subst h
          refine le_trans ?_ hres
          split <;> omega
        · rcases List.mem_cons.mp h with h2 | h2
          · subst h2
            refine le_trans ?_ hres
            split <;> omega
          · exact hbound x (List.mem_cons_of_mem _ h2)

/-- JS `reduce` picking the minimum of an integer key (strict `<`, keeping
the earlier element on ties) yields an element of the list whose key
bounds every other element's key from below. -/
theorem foldl_min_by {α : Type} (key : α → Int) (a : α) (l : List α) :
    (l.foldl (fun min x => if key x < key min then x else min) a) ∈ a :: l ∧
    ∀ x ∈ a :: l, key (l.foldl (fun min x => if key x < key min then x else min) a) ≤ key x := by
  induction l generalizing a with
  | nil => simp
  | cons b t ih =>
      simp only [List.foldl_cons]
      obtain ⟨hmem, hbound⟩ := ih (if key b < key a then b else a)
      refine ⟨?_, ?_⟩
      · rcases List.mem_cons.mp hmem with h | h
        · rw [h]
          split <;> simp
        · simp [h]
      · intro x hx
        have hres := hbound _ (List.mem_cons_self _ _)
        rcases List.mem_cons.mp hx with h | h
        · subst h
          refine le_trans hres ?_
          split <;> omega
        · rcases List.mem_cons.mp h with h2 | h2
          · subst h2
            refine le_trans hres ?_
            split <;> omega
          · exact hbound x (List.mem_cons_of_mem _ h2)

/-- The scan ends in the speaking state exactly when the last interval
event at or before the query timestamp is a `start`. -/
theorem scanIntervals_fst (timestampMs : Int) (intervals : List SpeechInterval) :
    (scanIntervals timestampMs intervals).1 = true ↔
      ∃ e, (intervals.takeWhile (·.timestampMs ≤ timestampMs)).getLast? = some e ∧
        e.type = .start := by
  unfold scanIntervals
  induction (intervals.takeWhile (·.timestampMs ≤ timestampMs)) using List.reverseRecOn with
  | nil => simp
  | append_singleton l e _ =>
      rw [List.foldl_append, List.getLast?_concat]
      cases he : e.type <;> simp [he]

/-- The scan's `timestampMsOfLastStart` is the timestamp of the last
`start` event at or before the query timestamp, when one exists. -/
theorem scanIntervals_snd (timestampMs : Int) (intervals : List SpeechInterval) :
    (scanIntervals timestampMs intervals).2 =
      ((intervals.takeWhile (·.timestampMs ≤ timestampMs)).filter
        (fun e => e.type == .start)).getLast?.map (·.timestampMs) := by
  unfold scanIntervals
  induction (intervals.takeWhile (·.timestampMs ≤ timestampMs)) using List.reverseRecOn with
  | nil => simp
  | append_singleton l e ih =>
      rw [List.foldl_append, List.filter_append]
      cases he : e.type <;> simp [he, ih]

/-- `getLastSpeakerIdForTimestampMs` returns the speaker of a
caption-correlation entry at or before the query timestamp whose timestamp
bounds every other such entry. -/
theorem getLastSpeakerId_spec (d : DominantSpeakerManager) (T : Int) (p : String)
    (h : getLastSpeakerIdForTimestampMs d T = some p) :
    ∃ c ∈ d.captionAudioTimes, c.speakerId = p ∧ c.timestampMs ≤ T ∧
      ∀ c2 ∈ d.captionAudioTimes, c2.timestampMs ≤ T → c2.timestampMs ≤ c.timestampMs := by
  unfold getLastSpeakerIdForTimestampMs at h
  rcases hf : d.captionAudioTimes.filter (·.timestampMs ≤ T) with _ | ⟨c, cs⟩
  · rw [hf] at h
    simp at h
  · rw [hf] at h
    simp only [Option.some.injEq] at h
    obtain ⟨hmem, hbound⟩ := foldl_max_by (·.timestampMs) c cs
    rw [← hf] at hmem
    refine ⟨_, ?_, h, ?_, ?_⟩
    · exact List.mem_of_mem_filter hmem
    · have := List.of_mem_filter hmem
      simpa using this
    · intro c2 hc2 hc2T
      have hc2f : c2 ∈ d.captionAudioTimes.filter (·.timestampMs ≤ T) :=
        List.mem_filter.mpr ⟨hc2, by simpa using hc2T⟩
      rw [hf] at hc2f
      exact hbound c2 hc2f

theorem getLastSpeakerId_empty (d : DominantSpeakerManager) (T : Int)
    (h : d.captionAudioTimes = []) : getLastSpeakerIdForTimestampMs d T = none := by
  unfold getLastSpeakerIdForTimestampMs
  rw [h]
  rfl

/-- C2 (amended): for every query timestamp `T`: a participant is open
exactly when its last interval event at or before `T` is a `start`; the
query returns none when no participant is open; the unique open
participant when exactly one is open; and with several open, the
participant named by the most recent caption-correlation entry at or
before `T` provided that participant's id is non-empty (JS truthiness)
and among the open set, otherwise an open participant whose current open
interval started earliest.  The caption pick really is the most recent
entry at or before `T`. -/
theorem C2_interval_attribution_amended (d : DominantSpeakerManager) (T : Int) :
    (∀ ivs : List SpeechInterval, (scanIntervals T ivs).1 = true ↔
      ∃ e, (ivs.takeWhile (·.timestampMs ≤ T)).getLast? = some e ∧ e.type = .start) ∧
    (speakersAtTimestamp d T = [] →
      getSpeakerIdForTimestampMsUsingSpeechIntervals d T = none) ∧
    (∀ sp, speakersAtTimestamp d T = [sp] →
      getSpeakerIdForTimestampMsUsingSpeechIntervals d T = some sp.speakerId) ∧
    (2 ≤ (speakersAtTimestamp d T).length →
      (∀ p, getLastSpeakerIdForTimestampMs d T = some p → p ≠ "" →
        (speakersAtTimestamp d T).any (fun s => s.speakerId == p) = true →
        getSpeakerIdForTimestampMsUsingSpeechIntervals d T = some p) ∧
      ((∀ p, getLastSpeakerIdForTimestampMs d T = some p →
          p = "" ∨ (speakersAtTimestamp d T).any (fun s => s.speakerId == p) = false) →
        ∃ sp ∈ speakersAtTimestamp d T,
          getSpeakerIdForTimestampMsUsingSpeechIntervals d T = some sp.speakerId ∧
          ∀ sp2 ∈ speakersAtTimestamp d T,
            sp.timestampMsOfLastStart.getD 0 ≤ sp2.timestampMsOfLastStart.getD 0)) ∧
    (∀ p, getLastSpeakerIdForTimestampMs d T = some p →
      ∃ c ∈ d.captionAudioTimes, c.speakerId = p ∧ c.timestampMs ≤ T ∧
        ∀ c2 ∈ d.captionAudioTimes, c2.timestampMs ≤ T → c2.timestampMs ≤ c.timestampMs) := by
  refine ⟨fun ivs => scanIntervals_fst T ivs, ?_, ?_, ?_, fun p => getLastSpeakerId_spec d T p⟩
  · intro h
    simp [getSpeakerIdForTimestampMsUsingSpeechIntervals, h]
  · intro sp h
    simp [getSpeakerIdForTimestampMsUsingSpeechIntervals, h]
  · intro hlen
    obtain ⟨sp1, sp2, rest, hsp⟩ : ∃ a b r, speakersAtTimestamp d T = a :: b :: r := by
      rcases hs : speakersAtTimestamp d T with _ | ⟨a, _ | ⟨b, r⟩⟩
      · rw [hs] at hlen
        simp at hlen
      · rw [hs] at hlen
        simp at hlen
      · exact ⟨a, b, r, rfl⟩
    constructor
    · intro p hget hp hany
      have hne : d.captionAudioTimes ≠ [] := by
        intro h0
        rw [getLastSpeakerId_empty d T h0] at hget
        exact Option.noConfusion hget
      have hcl : 0 < d.captionAudioTimes.length := List.length_pos.mpr hne
      rw [hsp] at hany
      simp only [getSpeakerIdForTimestampMsUsingSpeechIntervals, hsp]
      rw [if_neg (by simp), if_neg (by simp), if_pos hcl]
      simp only [hget]
      rw [if_pos ⟨hp, hany⟩]
    · intro hfall
      obtain ⟨hmem, hbound⟩ :=
        foldl_min_by (fun s : SpeakerAt => s.timestampMsOfLastStart.getD 0) sp1 (sp2 :: rest)
      refine ⟨_, by rw [hsp]; exact hmem, ?_, by rw [hsp]; exact hbound⟩
      rcases hget : getLastSpeakerIdForTimestampMs d T with _ | p
      · simp only [getSpeakerIdForTimestampMsUsingSpeechIntervals, hsp]
        rw [if_neg (by simp), if_neg (by simp)]
        by_cases hc : 0 < d.captionAudioTimes.length
        · rw [if_pos hc]
          simp only [hget]
        · rw [if_neg hc]
      · have hpo := hfall p hget
        rw [hsp] at hpo
        simp only [getSpeakerIdForTimestampMsUsingSpeechIntervals, hsp]
        rw [if_neg (by simp), if_neg (by simp)]
        by_cases hc : 0 < d.captionAudioTimes.length
        · rw [if_pos hc]
          simp only [hget]
          rw [if_neg (by
            rintro ⟨h1, h2⟩
            rcases hpo with h3 | h3
            · exact h1 h3
            · rw [h3] at h2
              exact Bool.noConfusion h2)]
        · rw [if_neg hc]

/-- Counterexample to C2 as stated: with participants `""` (open, started
at 10) and `"A"` (open, started at 0) and the most recent caption entry at
or before T = 20 naming `""` — which is among the open set — the claim
requires the query to return `""`, but the JS truthiness guard rejects the
empty id and the code returns the earliest starter `"A"`. -/
theorem C2_interval_attribution_counterexample :
    2 ≤ (speakersAtTimestamp
        ⟨[⟨5, ""⟩], [("", [⟨.start, 10⟩]), ("A", [⟨.start, 0⟩])]⟩ 20).length ∧
    getLastSpeakerIdForTimestampMs
        ⟨[⟨5, ""⟩], [("", [⟨.start, 10⟩]), ("A", [⟨.start, 0⟩])]⟩ 20 = some "" ∧
    ((speakersAtTimestamp
        ⟨[⟨5, ""⟩], [("", [⟨.start, 10⟩]), ("A", [⟨.start, 0⟩])]⟩ 20).any
      (fun s => s.speakerId == "")) = true ∧
    getSpeakerIdForTimestampMsUsingSpeechIntervals
        ⟨[⟨5, ""⟩], [("", [⟨.start, 10⟩]), ("A", [⟨.start, 0⟩])]⟩ 20 = some "A" ∧
    some "A" ≠ some ("" : String) := by
  decide

/-- Witness for the amended C2: two open participants `"A"` (started at 0)
and `"B"` (started at 10), caption ground truth naming the later starter
`"B"` — the query returns `"B"`. -/
theorem C2_interval_attribution_amended_witness :
    getSpeakerIdForTimestampMsUsingSpeechIntervals
        ⟨[⟨5, "B"⟩], [("A", [⟨.start, 0⟩]), ("B", [⟨.start, 10⟩])]⟩ 20 = some "B" := by
  obtain ⟨-, -, -, hmulti, -⟩ := C2_interval_attribution_amended
    ⟨[⟨5, "B"⟩], [("A", [⟨.start, 0⟩]), ("B", [⟨.start, 10⟩])]⟩ 20
  obtain ⟨hcap, -⟩ := hmulti (by decide)
  exact hcap "B" (by decide) (by decide) (by decide)

/-! ## Per-source audio relay queue (`handleAudioTrack`)

Embeds the per-track `audioDataQueue` together with the 100 ms
`processAudioQueue` polling loop.  A queue entry is
`{audioArrivalTime, audioData}`; `audioData` is opaque here (a tag).
The speaker-attribution call
`dominantSpeakerManager.getSpeakerIdForTimestampMsUsingSpeechIntervals`
is abstracted as a function `attr : Int → Option String`; JS truthiness of
its result (`if (dominantSpeakerId)`) additionally rejects an empty id.
Within one loop invocation `Date.now()` is modelled as the invocation's
single poll time.  The periodic `HandleAudioTrackDebugInfo` report (which
resets the counters every 10 s) is outside the scope of the claims and is
not modelled; the counters here accumulate. -/

/-- One `audioDataQueue` entry. -/
structure AudioChunk where
  audioArrivalTime : Int
  audioData : Nat
deriving DecidableEq, Repr

/-- JS truthiness of the attribution result. -/
def jsTruthy : Option String → Bool
  | some s => s ≠ ""
  | none => false

/-- Result of one `processAudioQueue` invocation. -/
structure DrainResult where
  remaining : List AudioChunk
  dequeued : List AudioChunk
  messages : List (Int × String × AudioChunk)
  framesWithDominantSpeaker : Nat
  framesWithoutDominantSpeaker : Nat
  totalFrames : Nat
deriving DecidableEq, Repr

/-- The `while` loop of `processAudioQueue`: dequeue head chunks whose age
(at poll time `now`) is at least `ACTIVE_SPEAKER_LATENCY_MS = 2000`; for
each, attribute the arrival time; on a truthy speaker id emit a
per-participant audio message, otherwise drop the chunk and count it. -/
def processAudioQueue (attr : Int → Option String) (now : Int) :
    List AudioChunk → DrainResult
  | [] => ⟨[], [], [], 0, 0, 0⟩
  | chunk :: rest =>
      if 2000 ≤ now - chunk.audioArrivalTime then
        let r := processAudioQueue attr now rest
        match attr chunk.audioArrivalTime with
        | some dominantSpeakerId =>
            if dominantSpeakerId ≠ "" then
              ⟨r.remaining, chunk :: r.dequeued,
               (now, dominantSpeakerId, chunk) :: r.messages,
               r.framesWithDominantSpeaker + 1, r.framesWithoutDominantSpeaker,
               r.totalFrames + 1⟩
            else
              ⟨r.remaining, chunk :: r.dequeued, r.messages,
               r.framesWithDominantSpeaker, r.framesWithoutDominantSpeaker + 1,
               r.totalFrames + 1⟩
        | none =>
            ⟨r.remaining, chunk :: r.dequeued, r.messages,
             r.framesWithDominantSpeaker, r.framesWithoutDominantSpeaker + 1,
             r.totalFrames + 1⟩
      else ⟨chunk :: rest, [], [], 0, 0, 0⟩

/-- An event of the per-track pipeline: a chunk arrival (the transform
callback pushing onto the queue) or a firing of the 100 ms poll timer. -/
inductive RelayEvent
  | arrive (chunk : AudioChunk)
  | poll (now : Int)
deriving DecidableEq, Repr

/-- Observable state of the per-track pipeline.  `arrivals` and `dequeued`
are history variables recording enqueue and dequeue order. -/
structure RelayState where
  audioDataQueue : List AudioChunk
  arrivals : List AudioChunk
  dequeued : List AudioChunk
  messages : List (Int × String × AudioChunk)
  framesWithDominantSpeaker : Nat
  framesWithoutDominantSpeaker : Nat
  totalFrames : Nat
deriving DecidableEq, Repr

def RelayState.init : RelayState := ⟨[], [], [], [], 0, 0, 0⟩

def relayStep (attr : Int → Option String) (st : RelayState) : RelayEvent → RelayState
  | .arrive c =>
      { st with audioDataQueue := st.audioDataQueue ++ [c],
                arrivals := st.arrivals ++ [c] }
  | .poll now =>
      let r := processAudioQueue attr now st.audioDataQueue
      { audioDataQueue := r.remaining,
        arrivals := st.arrivals,
        dequeued := st.dequeued ++ r.dequeued,
        messages := st.messages ++ r.messages,
        framesWithDominantSpeaker := st.framesWithDominantSpeaker + r.framesWithDominantSpeaker,
        framesWithoutDominantSpeaker :=
          st.framesWithoutDominantSpeaker + r.framesWithoutDominantSpeaker,
        totalFrames := st.totalFrames + r.totalFrames }

def relayRun (attr : Int → Option String) (events : List RelayEvent) : RelayState :=
  events.foldl (relayStep attr) RelayState.init

/-- One drain dequeues a prefix of the queue: dequeued ++ remaining is the
original queue. -/
theorem processAudioQueue_split (attr : Int → Option String) (now : Int)
    (queue : List AudioChunk) :
    (processAudioQueue attr now queue).dequeued ++
      (processAudioQueue attr now queue).remaining = queue := by
  induction queue with
  | nil => rfl
  | cons chunk rest ih =>
      unfold processAudioQueue
      split
      · rcases attr chunk.audioArrivalTime with _ | sid
        · simpa using ih
        · by_cases hs : sid ≠ "" <;> simp [hs, ih]
      · rfl

/-- Every message emitted by one drain is stamped with the poll time, its
chunk is at least 2000 ms old at that time, and its speaker id is the
truthy attribution of the chunk's arrival time. -/
theorem processAudioQueue_messages (attr : Int → Option String) (now : Int)
    (queue : List AudioChunk) :
    ∀ m ∈ (processAudioQueue attr now queue).messages,
      m.1 = now ∧ m.2.2.audioArrivalTime + 2000 ≤ now ∧
      attr m.2.2.audioArrivalTime = some m.2.1 ∧ m.2.1 ≠ "" := by
  induction queue with
  | nil => simp [processAudioQueue]
  | cons chunk rest ih =>
      by_cases hel : 2000 ≤ now - chunk.audioArrivalTime
      · rcases hattr : attr chunk.audioArrivalTime with _ | sid
        · simp only [processAudioQueue, hattr, if_pos hel]
          simpa using ih
        · by_cases hs : sid ≠ ""
          · simp only [processAudioQueue, hattr, if_pos hel]
            rw [if_pos hs]
            intro m hm
            rcases List.mem_cons.mp hm with h | h
            · subst h
              refine ⟨rfl, ?_, hattr, hs⟩
              show chunk.audioArrivalTime + 2000 ≤ now
              omega
            · exact ih m h
          · simp only [processAudioQueue, hattr, if_pos hel]
            rw [if_neg hs]
            simpa using ih
      · simp only [processAudioQueue, if_neg hel]
        simp

/-- Accounting of one drain: the emitted chunks are exactly the dequeued
chunks with truthy attribution (in order); the `framesWithoutDominantSpeaker`
counter counts exactly the dequeued chunks with falsy attribution; the
total counts every dequeued chunk. -/
theorem processAudioQueue_account (attr : Int → Option String) (now : Int)
    (queue : List AudioChunk) :
    (processAudioQueue attr now queue).messages.map (·.2.2) =
      (processAudioQueue attr now queue).dequeued.filter
        (fun c => jsTruthy (attr c.audioArrivalTime)) ∧
    (processAudioQueue attr now queue).framesWithDominantSpeaker =
      ((processAudioQueue attr now queue).dequeued.filter
        (fun c => jsTruthy (attr c.audioArrivalTime))).length ∧
    (processAudioQueue attr now queue).framesWithoutDominantSpeaker =
      ((processAudioQueue attr now queue).dequeued.filter
        (fun c => !jsTruthy (attr c.audioArrivalTime))).length ∧
    (processAudioQueue attr now queue).totalFrames =
      (processAudioQueue attr now queue).dequeued.length := by
  induction queue with
  | nil => simp [processAudioQueue]
  | cons chunk rest ih =>
      by_cases hel : 2000 ≤ now - chunk.audioArrivalTime
      · rcases hattr : attr chunk.audioArrivalTime with _ | sid
        · have ht : jsTruthy (attr chunk.audioArrivalTime) = false := by
            rw [hattr]; rfl
          simp only [processAudioQueue, hattr, if_pos hel]
          simpa [ht] using ih
        · by_cases hs : sid ≠ ""
          · have ht : jsTruthy (attr chunk.audioArrivalTime) = true := by
              rw [hattr]; simpa [jsTruthy] using hs
            simp only [processAudioQueue, hattr, if_pos hel]
            rw [if_pos hs]
            simpa [ht] using ih
          · have hs' : sid = "" := by simpa using hs
            have ht : jsTruthy (attr chunk.audioArrivalTime) = false := by
              rw [hattr]; simp [jsTruthy, hs']
            simp only [processAudioQueue, hattr, if_pos hel]
            rw [if_neg hs]
            simpa [ht] using ih
      · simp only [processAudioQueue, if_neg hel]
        simp

theorem relayRun_append (attr : Int → Option String) (events : List RelayEvent)
    (e : RelayEvent) :
    relayRun attr (events ++ [e]) = relayStep attr (relayRun attr events) e := by
  simp [relayRun, List.foldl_append]

/-- C3: over every interleaving of chunk arrivals with firings of the
100 ms polling loop: the dequeue order is FIFO (dequeued chunks followed
by the live queue reconstruct the arrival order); every emitted
per-participant audio message is emitted at a poll time at least 2000 ms
after its chunk's arrival time and carries a truthy speaker attribution
of that arrival time; the emitted chunks are exactly the dequeued chunks
whose arrival time is attributed, and each dequeued unattributed chunk is
dropped and counted by the `framesWithoutDominantSpeaker` diagnostic. -/
theorem C3_attribution_latency_buffer (attr : Int → Option String)
    (events : List RelayEvent) :
    ((relayRun attr events).arrivals =
      events.filterMap (fun e => match e with | .arrive c => some c | .poll _ => none)) ∧
    ((relayRun attr events).dequeued ++ (relayRun attr events).audioDataQueue =
      (relayRun attr events).arrivals) ∧
    (∀ m ∈ (relayRun attr events).messages,
      m.2.2.audioArrivalTime + 2000 ≤ m.1 ∧
      attr m.2.2.audioArrivalTime = some m.2.1 ∧ m.2.1 ≠ "") ∧
    ((relayRun attr events).messages.map (·.2.2) =
      (relayRun attr events).dequeued.filter
        (fun c => jsTruthy (attr c.audioArrivalTime))) ∧
    ((relayRun attr events).framesWithoutDominantSpeaker =
      ((relayRun attr events).dequeued.filter
        (fun c => !jsTruthy (attr c.audioArrivalTime))).length) ∧
    ((relayRun attr events).totalFrames = (relayRun attr events).dequeued.length) := by
  induction events using List.reverseRecOn with
  | nil => simp [relayRun, RelayState.init]
  | append_singleton evs e ih =>
      obtain ⟨iharr, ihfifo, ihmsg, ihmap, ihcount, ihtotal⟩ := ih
      rw [relayRun_append]
      cases e with
      | arrive c =>
          refine ⟨?_, ?_, ?_, ?_, ?_, ?_⟩
          · simp [relayStep, iharr]
          · show (relayRun attr evs).dequeued ++
              ((relayRun attr evs).audioDataQueue ++ [c]) =
              (relayRun attr evs).arrivals ++ [c]
            rw [← List.append_assoc, ihfifo]
          · exact ihmsg
          · exact ihmap
          · exact ihcount
          · exact ihtotal
      | poll now =>
          have hsplit := processAudioQueue_split attr now (relayRun attr evs).audioDataQueue
          have hmsgs := processAudioQueue_messages attr now (relayRun attr evs).audioDataQueue
          obtain ⟨hmap2, -, hcount2, htotal2⟩ :=
            processAudioQueue_account attr now (relayRun attr evs).audioDataQueue
          refine ⟨?_, ?_, ?_, ?_, ?_, ?_⟩
          · simpa [relayStep] using iharr
          · show ((relayRun attr evs).dequeued ++
                (processAudioQueue attr now (relayRun attr evs).audioDataQueue).dequeued) ++
                (processAudioQueue attr now (relayRun attr evs).audioDataQueue).remaining =
                (relayRun attr evs).arrivals
            rw [List.append_assoc, hsplit, ihfifo]
          · intro m hm
            rcases List.mem_append.mp hm with h | h
            · exact ihmsg m h
            · obtain ⟨h1, h2, h3, h4⟩ := hmsgs m h
              exact ⟨by omega, h3, h4⟩
          · show List.map (·.2.2) ((relayRun attr evs).messages ++
                (processAudioQueue attr now (relayRun attr evs).audioDataQueue).messages) =
                List.filter (fun c => jsTruthy (attr c.audioArrivalTime))
                  ((relayRun attr evs).dequeued ++
                    (processAudioQueue attr now (relayRun attr evs).audioDataQueue).dequeued)
            rw [List.map_append, List.filter_append, ihmap, hmap2]
          · show (relayRun attr evs).framesWithoutDominantSpeaker +
                (processAudioQueue attr now
                  (relayRun attr evs).audioDataQueue).framesWithoutDominantSpeaker =
                (List.filter (fun c => !jsTruthy (attr c.audioArrivalTime))
                  ((relayRun attr evs).dequeued ++
                    (processAudioQueue attr now
                      (relayRun attr evs).audioDataQueue).dequeued)).length
            rw [List.filter_append, List.length_append, ihcount, hcount2]
          · show (relayRun attr evs).totalFrames +
                (processAudioQueue attr now (relayRun attr evs).audioDataQueue).totalFrames =
                ((relayRun attr evs).dequeued ++
                  (processAudioQueue attr now
                    (relayRun attr evs).audioDataQueue).dequeued).length
            rw [List.length_append, ihtotal, htotal2]

/-- Witness for C3: a chunk arriving at t = 0 is not emitted by the poll
at t = 1999 but is emitted by the poll at t = 2500, attributed to `"P"`. -/
theorem C3_attribution_latency_buffer_witness :
    (⟨0, 42⟩ : AudioChunk).audioArrivalTime + 2000 ≤ 2500 ∧
    (fun t : Int => if t = 0 then some "P" else none)
      ((⟨0, 42⟩ : AudioChunk).audioArrivalTime) = some "P" ∧ ("P" : String) ≠ "" := by
  obtain ⟨-, -, hmsg, -⟩ :=
    C3_attribution_latency_buffer (fun t : Int => if t = 0 then some "P" else none)
      [.arrive ⟨0, 42⟩, .poll 1999, .poll 2500]
  have hm := hmsg (2500, "P", ⟨0, 42⟩) (by decide)
  exact ⟨hm.1, hm.2.1, hm.2.2⟩

/-! ## Silence gating in `handleAudioTrack`'s transform callback

Models the enqueue decision made for each audio frame: the one-time
`WebRTCTrackIsNonSilent` diagnostic and `trackIsNonSilent` latch, and the
multiple-queue non-silent filter keyed on
`globalAudioQueueIntervalsSet.size`.  A frame is its post-mix sample
vector (`audioData`); samples are embedded as integers since the only
operation performed on them here is comparison with zero. -/

/-- Per-track gating state: the `trackIsNonSilent` latch, the frames
pushed onto `audioDataQueue` (payload only), and the number of
`WebRTCTrackIsNonSilent` diagnostics sent. -/
structure TrackState where
  trackIsNonSilent : Bool
  queued : List (List Int)
  nonSilentSignals : Nat
deriving DecidableEq, Repr

def TrackState.init : TrackState := ⟨false, [], 0⟩

/-- One transform invocation (the silence-gating tail of the callback):
latch and signal on the first non-silent frame; drop every frame while
the track is silent so far; with more than one active audio queue, also
drop silent frames; otherwise enqueue. -/
def audioTransformStep (queueCount : Nat) (st : TrackState) (audioData : List Int) :
    TrackState :=
  let st1 :=
    if !st.trackIsNonSilent && audioData.any (· ≠ 0) then
      { st with trackIsNonSilent := true, nonSilentSignals := st.nonSilentSignals + 1 }
    else st
  if !st1.trackIsNonSilent then st1
  else if queueCount > 1 && !audioData.any (· ≠ 0) then st1
  else { st1 with queued := st1.queued ++ [audioData] }

/-- Feed a sequence of frames through the transform gating. -/
def audioTransformRun (queueCount : Nat) (frames : List (List Int)) : TrackState :=
  frames.foldl (audioTransformStep queueCount) TrackState.init

theorem audioTransformRun_append (queueCount : Nat) (frames : List (List Int))
    (f : List Int) :
    audioTransformRun queueCount (frames ++ [f]) =
      audioTransformStep queueCount (audioTransformRun queueCount frames) f := by
  simp [audioTransformRun, List.foldl_append]

/-- The latch holds exactly when some frame so far was non-silent. -/
theorem audioTransformRun_latch (queueCount : Nat) (frames : List (List Int)) :
    (audioTransformRun queueCount frames).trackIsNonSilent =
      frames.any (fun f => f.any (· ≠ 0)) := by
  induction frames using List.reverseRecOn with
  | nil => rfl
  | append_singleton l f ih =>
      rw [audioTransformRun_append]
      rcases hf : f.any (· ≠ 0) with _ | _ <;>
        rcases htr : (audioTransformRun queueCount l).trackIsNonSilent with _ | _ <;>
          rw [htr] at ih <;>
          simp only [audioTransformStep, htr, hf, List.any_append, ← ih] <;>
          simp [htr, hf] <;>
          first
            | simpa using hf
            | (split <;> simp [htr])

/-- Case analysis of one transform invocation. -/
theorem audioTransformStep_cases (queueCount : Nat) (st : TrackState) (f : List Int) :
    audioTransformStep queueCount st f =
      if st.trackIsNonSilent then
        (if queueCount > 1 && !f.any (· ≠ 0) then st
         else { st with queued := st.queued ++ [f] })
      else if f.any (· ≠ 0) then
        { st with trackIsNonSilent := true, nonSilentSignals := st.nonSilentSignals + 1,
                  queued := st.queued ++ [f] }
      else st := by
  unfold audioTransformStep
  rcases htr : st.trackIsNonSilent with _ | _ <;>
    rcases hf : f.any (· ≠ 0) with _ | _ <;>
      simp [htr, hf]

/-- Boolean helpers for the silence predicate. -/
theorem any_append_singleton (l : List (List Int)) (f : List Int) :
    (l ++ [f]).any (fun g => g.any (· ≠ 0)) =
      (l.any (fun g => g.any (· ≠ 0)) || f.any (· ≠ 0)) := by
  simp only [List.any_append, List.any_cons, List.any_nil, Bool.or_false]

/-- The one-time diagnostic: sent exactly once, on the first non-silent
frame. -/
theorem audioTransformRun_signals (queueCount : Nat) (frames : List (List Int)) :
    (audioTransformRun queueCount frames).nonSilentSignals =
      if frames.any (fun f => f.any (· ≠ 0)) then 1 else 0 := by
  induction frames using List.reverseRecOn with
  | nil => rfl
  | append_singleton l f ih =>
      rw [audioTransformRun_append, audioTransformStep_cases]
      have hlatch := audioTransformRun_latch queueCount l
      rw [any_append_singleton]
      rcases hl : l.any (fun g => g.any (· ≠ 0)) with _ | _ <;> rw [hl] at hlatch <;>
        rcases hf : f.any (· ≠ 0) with _ | _
      · rw [hlatch, if_neg Bool.false_ne_true, if_neg Bool.false_ne_true, ih, hl]
        simp
      · rw [hlatch, if_neg Bool.false_ne_true, if_pos rfl]
        show (audioTransformRun queueCount l).nonSilentSignals + 1 = _
        rw [ih, hl]
        simp
      · rw [hlatch, if_pos rfl]
        split <;> rw [ih, hl] <;> simp
      · rw [hlatch, if_pos rfl]
        split <;> rw [ih, hl] <;> simp

theorem dropWhile_silent_nil {α : Type} (pr : α → Bool) (l : List α)
    (h : l.any pr = false) : l.dropWhile (fun x => !pr x) = [] := by
  induction l with
  | nil => rfl
  | cons a t ih =>
      simp only [List.any_cons, Bool.or_eq_false_iff] at h
      simp [List.dropWhile_cons, h.1, ih h.2]

theorem dropWhile_silent_ne_nil {α : Type} (pr : α → Bool) (l : List α)
    (h : l.any pr = true) : (l.dropWhile (fun x => !pr x)).isEmpty = false := by
  induction l with
  | nil => simp at h
  | cons a t ih =>
      rcases ha : pr a with _ | _
      · simp only [List.any_cons, ha, Bool.false_or] at h
        simpa [List.dropWhile_cons, ha] using ih h
      · simp [List.dropWhile_cons, ha]

/-- With a single active audio queue, the enqueued frames are the suffix
starting at the first non-silent frame. -/
theorem audioTransformRun_queued_single (queueCount : Nat) (hq : queueCount ≤ 1)
    (frames : List (List Int)) :
    (audioTransformRun queueCount frames).queued =
      frames.dropWhile (fun f => !f.any (· ≠ 0)) := by
  induction frames using List.reverseRecOn with
  | nil => rfl
  | append_singleton l f ih =>
      rw [audioTransformRun_append, audioTransformStep_cases]
      have hlatch := audioTransformRun_latch queueCount l
      have hqd : decide (queueCount > 1) = false := by
        simp
        omega
      rcases hl : l.any (fun g => g.any (· ≠ 0)) with _ | _ <;> rw [hl] at hlatch
      · have hall : ∀ x ∈ l, (fun g : List Int => !g.any (· ≠ 0)) x = true := by
          intro x hx
          have hx0 := List.any_eq_false.mp hl x hx
          show (!x.any (· ≠ 0)) = true
          rcases hxa : x.any (· ≠ 0) with _ | _
          · rfl
          · exact absurd (by simpa using hxa) (by simpa using hx0)
        rw [List.dropWhile_append_of_pos hall]
        rcases hf : f.any (· ≠ 0) with _ | _
        · rw [hlatch, if_neg Bool.false_ne_true, if_neg Bool.false_ne_true, ih,
            dropWhile_silent_nil _ _ hl, List.dropWhile_cons, hf, Bool.not_false,
            if_pos rfl]
          rfl
        · rw [hlatch, if_neg Bool.false_ne_true, if_pos rfl]
          show (audioTransformRun queueCount l).queued ++ [f] = _
          rw [ih, dropWhile_silent_nil _ _ hl, List.dropWhile_cons, hf, Bool.not_true,
            if_neg Bool.false_ne_true]
          rfl
      · rcases hf : f.any (· ≠ 0) with _ | _ <;>
          [rw [hlatch, if_pos rfl,
              if_neg (show ¬ (decide (queueCount > 1) && !false) = true by
                rw [hqd]
                simp)];
           rw [hlatch, if_pos rfl,
              if_neg (show ¬ (decide (queueCount > 1) && !true) = true by
                rw [hqd]
                simp)]] <;>
        · show (audioTransformRun queueCount l).queued ++ [f] = _
          rw [ih, List.dropWhile_append, dropWhile_silent_ne_nil _ _ hl]
          simp

/-- With more than one active audio queue, exactly the non-silent frames
are enqueued. -/
theorem audioTransformRun_queued_multi (queueCount : Nat) (hq : 2 ≤ queueCount)
    (frames : List (List Int)) :
    (audioTransformRun queueCount frames).queued =
      frames.filter (fun f => f.any (· ≠ 0)) := by
  induction frames using List.reverseRecOn with
  | nil => rfl
  | append_singleton l f ih =>
      rw [audioTransformRun_append, audioTransformStep_cases]
      have hlatch := audioTransformRun_latch queueCount l
      have hqd : decide (queueCount > 1) = true := by
        simp
        omega
      rw [List.filter_append]
      rcases hl : l.any (fun g => g.any (· ≠ 0)) with _ | _ <;> rw [hl] at hlatch <;>
        rcases hf : f.any (· ≠ 0) with _ | _
      · rw [hlatch, if_neg Bool.false_ne_true, if_neg Bool.false_ne_true, ih,
          List.filter_cons, hf, if_neg Bool.false_ne_true]
        simp
      · rw [hlatch, if_neg Bool.false_ne_true, if_pos rfl]
        show (audioTransformRun queueCount l).queued ++ [f] = _
        rw [ih, List.filter_cons, hf, if_pos rfl]
        rfl
      · rw [hlatch, if_pos rfl,
          if_pos (show (decide (queueCount > 1) && !false) = true by
            rw [hqd]
            rfl),
          ih, List.filter_cons, hf, if_neg Bool.false_ne_true]
        simp
      · rw [hlatch, if_pos rfl,
          if_neg (show ¬ (decide (queueCount > 1) && !true) = true by
            rw [hqd]
            simp)]
        show (audioTransformRun queueCount l).queued ++ [f] = _
        rw [ih, List.filter_cons, hf, if_pos rfl]
        rfl

/-- A relay pipeline that never receives an arrival emits no message. -/
theorem relayRun_no_arrivals (attr : Int → Option String) (pollTimes : List Int) :
    (relayRun attr (pollTimes.map RelayEvent.poll)).audioDataQueue = [] ∧
    (relayRun attr (pollTimes.map RelayEvent.poll)).messages = [] := by
  induction pollTimes using List.reverseRecOn with
  | nil => exact ⟨rfl, rfl⟩
  | append_singleton ts t ih =>
      rw [List.map_append,
        show List.map RelayEvent.poll [t] = [RelayEvent.poll t] from rfl,
        relayRun_append]
      obtain ⟨hqueue, hmsg⟩ := ih
      constructor
      · show (processAudioQueue attr t
            (relayRun attr (ts.map RelayEvent.poll)).audioDataQueue).remaining = []
        rw [hqueue]
        rfl
      · show (relayRun attr (ts.map RelayEvent.poll)).messages ++
            (processAudioQueue attr t
              (relayRun attr (ts.map RelayEvent.poll)).audioDataQueue).messages = []
        rw [hqueue, hmsg]
        rfl

/-- C10: for every audio track, as long as every frame received so far
contained only zero samples, no chunk is enqueued and no non-silence
diagnostic is sent (hence, with nothing ever on the queue, the polling
loop emits no per-participant audio message for the track); the
`trackIsNonSilent` latch is set exactly when a frame with a non-zero
sample has arrived, the diagnostic is sent exactly once at that point, and
from then on frames are eligible for enqueueing: with a single active
queue the enqueued frames are precisely the first non-silent frame and
everything after it. -/
theorem C10_silent_track_gating (queueCount : Nat) (frames : List (List Int)) :
    ((audioTransformRun queueCount frames).trackIsNonSilent =
      frames.any (fun f => f.any (· ≠ 0))) ∧
    ((audioTransformRun queueCount frames).nonSilentSignals =
      if frames.any (fun f => f.any (· ≠ 0)) then 1 else 0) ∧
    (frames.any (fun f => f.any (· ≠ 0)) = false →
      (audioTransformRun queueCount frames).queued = [] ∧
      (audioTransformRun queueCount frames).nonSilentSignals = 0 ∧
      ∀ (attr : Int → Option String) (pollTimes : List Int),
        (relayRun attr (pollTimes.map RelayEvent.poll)).messages = []) ∧
    (queueCount ≤ 1 →
      (audioTransformRun queueCount frames).queued =
        frames.dropWhile (fun f => !f.any (· ≠ 0))) := by
  refine ⟨audioTransformRun_latch queueCount frames,
    audioTransformRun_signals queueCount frames, ?_, ?_⟩
  · intro hsilent
    refine ⟨?_, ?_, fun attr pollTimes => (relayRun_no_arrivals attr pollTimes).2⟩
    · by_cases hq : queueCount ≤ 1
      · rw [audioTransformRun_queued_single queueCount hq frames,
          dropWhile_silent_nil _ _ hsilent]
      · rw [audioTransformRun_queued_multi queueCount (by omega) frames]
        exact List.filter_eq_nil_iff.mpr (by
          intro f hf
          have := List.any_eq_false.mp hsilent f hf
          simpa using this)
    · rw [audioTransformRun_signals, hsilent]
      rfl
  · intro hq
    exact audioTransformRun_queued_single queueCount hq frames

/-- Witness for C10: three all-zero frames enqueue nothing and raise no
diagnostic; once `[0, 7]` arrives, the diagnostic fires once and that
frame and the following (even silent) frame are enqueued. -/
theorem C10_silent_track_gating_witness :
    (audioTransformRun 1 [[0], [0, 0]]).queued = [] ∧
    (audioTransformRun 1 [[0], [0, 0]]).nonSilentSignals = 0 ∧
    (audioTransformRun 1 [[0], [0, 0], [0, 7], [0]]).queued = [[0, 7], [0]] ∧
    (audioTransformRun 1 [[0], [0, 0], [0, 7], [0]]).nonSilentSignals = 1 := by
  obtain ⟨-, -, hsil, -⟩ := C10_silent_track_gating 1 [[0], [0, 0]]
  obtain ⟨hq1, hs1, -⟩ := hsil (by decide)
  obtain ⟨-, hsig, -, hdrop⟩ := C10_silent_track_gating 1 [[0], [0, 0], [0, 7], [0]]
  refine ⟨hq1, hs1, ?_, ?_⟩
  · rw [hdrop (by decide)]
    decide
  · rw [hsig]
    decide

/-- `handleAudioTrack` start-up: the new 100 ms polling interval is added
to `globalAudioQueueIntervalsSet` and a `MultipleAudioQueuesDetected`
diagnostic is sent when more than one is now active.  The pair is the new
set size and whether the diagnostic was sent. -/
def registerAudioQueueInterval (globalAudioQueueIntervalsSize : Nat) : Nat × Bool :=
  (globalAudioQueueIntervalsSize + 1, globalAudioQueueIntervalsSize + 1 > 1)

/-- C9: whenever a second (or later) audio source's polling queue becomes
active, the `MultipleAudioQueuesDetected` diagnostic is emitted; while
more than one queue is active, exactly the non-silent frames are
forwarded into the attribution-and-relay queue — in particular every
non-silent chunk is still relayed, so relay is never aborted. -/
theorem C9_multiple_audio_sources (n queueCount : Nat) (frames : List (List Int)) :
    (1 ≤ n → (registerAudioQueueInterval n).2 = true) ∧
    ((registerAudioQueueInterval n).1 = n + 1) ∧
    (2 ≤ queueCount →
      (audioTransformRun queueCount frames).queued =
        frames.filter (fun f => f.any (· ≠ 0)) ∧
      ∀ f ∈ frames, f.any (· ≠ 0) = true →
        f ∈ (audioTransformRun queueCount frames).queued) := by
  refine ⟨?_, rfl, ?_⟩
  · intro hn
    show decide (n + 1 > 1) = true
    simp
    omega
  · intro hq
    refine ⟨audioTransformRun_queued_multi queueCount hq frames, ?_⟩
    intro f hf hnz
    rw [audioTransformRun_queued_multi queueCount hq frames]
    exact List.mem_filter.mpr ⟨hf, hnz⟩

/-- Witness for C9: registering a second queue raises the diagnostic, and
with two active queues only the non-silent frames `[3]` and `[0, 5]` are
forwarded. -/
theorem C9_multiple_audio_sources_witness :
    (registerAudioQueueInterval 1).2 = true ∧
    (audioTransformRun 2 [[3], [0], [0, 5]]).queued = [[3], [0, 5]] ∧
    [3] ∈ (audioTransformRun 2 [[3], [0], [0, 5]]).queued := by
  obtain ⟨hreg, -, hmulti⟩ := C9_multiple_audio_sources 1 2 [[3], [0], [0, 5]]
  obtain ⟨hfilter, hmem⟩ := hmulti (by decide)
  refine ⟨hreg (by decide), ?_, hmem [3] (by decide) (by decide)⟩
  rw [hfilter]
  decide

/-! ## Virtual-to-physical stream mapping manager

Embeds `VirtualStreamToPhysicalStreamMappingManager`.  The two
`physicalStreamsBy…` members are JS `Map`s (iterated via `keys()`), so
they are embedded as insertion-ordered association lists; the two
`…Mapping` members are plain objects used only for keyed access and
delete, embedded as functions.  `dominantSpeakerStreamId` lives in
`DominantSpeakerManager` in the source; it is carried here because
`getDominantSpeaker` only reads it and this manager's `virtualStreams`. -/

/-- A roster participant as referenced from a virtual stream. -/
structure Participant where
  id : String
deriving DecidableEq, Repr

/-- A roster-declared media source. -/
structure VirtualStream where
  sourceId : String
  isScreenShare : Bool
  isWebcam : Bool
  isActive : Bool
  participant : Participant
deriving DecidableEq, Repr

/-- A transport-level record binding a session-description identifier
(`clientStreamId`) to a local-track identifier (`serverStreamId`). -/
structure PhysicalStream where
  clientStreamId : String
  serverStreamId : String
deriving DecidableEq, Repr

/-- JS `Map.set`: replace in place when the key exists, else append. -/
def amSet {β : Type} (m : List (String × β)) (k : String) (v : β) :
    List (String × β) :=
  if m.any (fun e => e.1 == k) then
    m.map (fun e => if e.1 == k then (k, v) else e)
  else m ++ [(k, v)]

/-- JS `Map.get`. -/
def amGet {β : Type} (m : List (String × β)) (k : String) : Option β :=
  (m.find? (fun e => e.1 == k)).map (·.2)

/-- JS `Map.keys()` (insertion order). -/
def amKeys {β : Type} (m : List (String × β)) : List String := m.map (·.1)

/-- JS `String.prototype.includes` on character lists. -/
def charListContains (needle : List Char) : List Char → Bool
  | [] => needle.isPrefixOf []
  | c :: t => needle.isPrefixOf (c :: t) || charListContains needle t

/-- JS `String.prototype.includes`. -/
def strIncludes (s sub : String) : Bool := charListContains sub.data s.data

structure VSPSMappingManager where
  virtualStreams : List VirtualStream
  physicalStreamsByClientStreamId : List (String × PhysicalStream)
  physicalStreamsByServerStreamId : List (String × PhysicalStream)
  physicalClientStreamIdToVirtualStreamIdMapping : String → Option String
  virtualStreamIdToPhysicalClientStreamIdMapping : String → Option String
  dominantSpeakerStreamId : Option String

/-- Fresh manager (and no dominant speaker signalled yet). -/
def VSPSMappingManager.init : VSPSMappingManager :=
  ⟨[], [], [], fun _ => none, fun _ => none, none⟩

/-- `upsertPhysicalStreams`: `Map.set` each record into both indexes. -/
def upsertPhysicalStreams (m : VSPSMappingManager)
    (physicalStreams : List PhysicalStream) : VSPSMappingManager :=
  physicalStreams.foldl (fun m p =>
    { m with
      physicalStreamsByClientStreamId :=
        amSet m.physicalStreamsByClientStreamId p.clientStreamId p,
      physicalStreamsByServerStreamId :=
        amSet m.physicalStreamsByServerStreamId p.serverStreamId p }) m

/-- `upsertPhysicalClientStreamIdToVirtualStreamIdMapping`: insert the
link in both directions, or, on the sentinel virtual id `"-1"`, delete it
from both (the reverse entry only when the forward lookup is truthy; a
falsy lookup logs an error and still deletes the forward entry). -/
def upsertPhysicalClientStreamIdToVirtualStreamIdMapping
    (m : VSPSMappingManager) (physicalClientStreamId virtualStreamId : String) :
    VSPSMappingManager :=
  if virtualStreamId = "-1" then
    let virtualStreamIdToDelete :=
      m.physicalClientStreamIdToVirtualStreamIdMapping physicalClientStreamId
    let virt' :=
      if jsTruthy virtualStreamIdToDelete then
        fun k => if k = virtualStreamIdToDelete.getD "" then none
                 else m.virtualStreamIdToPhysicalClientStreamIdMapping k
      else m.virtualStreamIdToPhysicalClientStreamIdMapping
    { m with
      physicalClientStreamIdToVirtualStreamIdMapping :=
        fun k => if k = physicalClientStreamId then none
                 else m.physicalClientStreamIdToVirtualStreamIdMapping k,
      virtualStreamIdToPhysicalClientStreamIdMapping := virt' }
  else
    { m with
      physicalClientStreamIdToVirtualStreamIdMapping :=
        fun k => if k = physicalClientStreamId then some virtualStreamId
                 else m.physicalClientStreamIdToVirtualStreamIdMapping k,
      virtualStreamIdToPhysicalClientStreamIdMapping :=
        fun k => if k = virtualStreamId then some physicalClientStreamId
                 else m.virtualStreamIdToPhysicalClientStreamIdMapping k }

/-- `virtualStreamIdToParticipant`. -/
def virtualStreamIdToParticipant (m : VSPSMappingManager) (virtualStreamId : String) :
    Option Participant :=
  ((m.virtualStreams.find? (fun vs => vs.sourceId == virtualStreamId)).map
    (·.participant))

/-- `DominantSpeakerManager.getDominantSpeaker`: resolve the externally
signalled dominant-speaker stream id against the roster streams. -/
def getDominantSpeaker (m : VSPSMappingManager) : Option Participant :=
  match m.dominantSpeakerStreamId with
  | none => none
  | some ds => virtualStreamIdToParticipant m ds

/-- `getVirtualVideoStreamIdToSend`: among virtual streams that are a
screenshare or webcam, are not the agent's own outgoing stream, and have
a resolved physical stream — prefer the first active screenshare, else
the active webcam of the dominant speaker, else the first such stream. -/
def getVirtualVideoStreamIdToSend (m : VSPSMappingManager) : Option String :=
  let virtualSteamsThatHavePhysicalStreams := m.virtualStreams.filter (fun vs =>
    (vs.isScreenShare || vs.isWebcam) &&
    !jsTruthy (m.physicalClientStreamIdToVirtualStreamIdMapping vs.sourceId) &&
    jsTruthy (m.virtualStreamIdToPhysicalClientStreamIdMapping vs.sourceId))
  if virtualSteamsThatHavePhysicalStreams.length = 0 then none
  else
    match virtualSteamsThatHavePhysicalStreams.find?
        (fun vs => vs.isScreenShare && vs.isActive) with
    | some firstActiveScreenShareStream => some firstActiveScreenShareStream.sourceId
    | none =>
        let fallback := (virtualSteamsThatHavePhysicalStreams.head?).map (·.sourceId)
        match getDominantSpeaker m with
        | some dominantSpeaker =>
            match virtualSteamsThatHavePhysicalStreams.find? (fun vs =>
                vs.participant.id == dominantSpeaker.id && vs.isWebcam && vs.isActive) with
            | some dominantSpeakerVideoStream => some dominantSpeakerVideoStream.sourceId
            | none => fallback
        | none => fallback

/-- `getVideoStreamIdToSend`: resolve the selected virtual stream to its
physical stream via the reconciliation link and return its
`serverStreamId`.  The guard is the JS falsiness test
`if (!virtualVideoStreamIdToSend)`, so both a `null` selection and an
empty-string selection fall back to the first server-stream key
containing `"Video"` (`.getD ""` only reads the value already known to
be a non-empty `some` on the resolution branch). -/
def getVideoStreamIdToSend (m : VSPSMappingManager) : Option String :=
  let virtualVideoStreamIdToSend := getVirtualVideoStreamIdToSend m
  if !jsTruthy virtualVideoStreamIdToSend then
    (amKeys m.physicalStreamsByServerStreamId).find?
      (fun physicalServerStreamId => strIncludes physicalServerStreamId "Video")
  else
    match m.virtualStreamIdToPhysicalClientStreamIdMapping
        (virtualVideoStreamIdToSend.getD "") with
    | none => none
    | some physicalClientStreamId =>
        match amGet m.physicalStreamsByClientStreamId physicalClientStreamId with
        | none => none
        | some physicalStream => some physicalStream.serverStreamId

/-- Apply a sequence of source-selection link operations to a fresh
manager. -/
def runMappingOps (ops : List (String × String)) : VSPSMappingManager :=
  ops.foldl (fun m op =>
    upsertPhysicalClientStreamIdToVirtualStreamIdMapping m op.1 op.2)
    VSPSMappingManager.init

/-- The forward and reverse link maps are mutual inverses. -/
def MappingLinksInverse (m : VSPSMappingManager) : Prop :=
  ∀ p v, m.physicalClientStreamIdToVirtualStreamIdMapping p = some v ↔
    m.virtualStreamIdToPhysicalClientStreamIdMapping v = some p

/-- No forward entry carries the empty (JS-falsy) virtual id. -/
def MappingNoEmpty (m : VSPSMappingManager) : Prop :=
  ∀ q, m.physicalClientStreamIdToVirtualStreamIdMapping q ≠ some ""

/-- Validity of one operation for the amended claim: a sentinel delete,
or an insertion whose description id and roster id are both unlinked and
whose roster id is non-empty. -/
def ValidMappingOps : VSPSMappingManager → List (String × String) → Prop
  | _, [] => True
  | m, (p, v) :: rest =>
      (v = "-1" ∨
        (m.physicalClientStreamIdToVirtualStreamIdMapping p = none ∧
         m.virtualStreamIdToPhysicalClientStreamIdMapping v = none ∧
         v ≠ "" ∧ v ≠ "-1")) ∧
      ValidMappingOps (upsertPhysicalClientStreamIdToVirtualStreamIdMapping m p v) rest

theorem upsertMapping_preserves (m : VSPSMappingManager) (p v : String)
    (hinv : MappingLinksInverse m) (hne : MappingNoEmpty m)
    (hok : v = "-1" ∨
      (m.physicalClientStreamIdToVirtualStreamIdMapping p = none ∧
       m.virtualStreamIdToPhysicalClientStreamIdMapping v = none ∧
       v ≠ "" ∧ v ≠ "-1")) :
    MappingLinksInverse (upsertPhysicalClientStreamIdToVirtualStreamIdMapping m p v) ∧
    MappingNoEmpty (upsertPhysicalClientStreamIdToVirtualStreamIdMapping m p v) := by
  rcases hok with hsent | ⟨hp, hv, hvne, hvs⟩
  · subst hsent
    rcases hdel : m.physicalClientStreamIdToVirtualStreamIdMapping p with _ | v0
    · refine ⟨fun q w => ?_, fun q => ?_⟩
      · unfold upsertPhysicalClientStreamIdToVirtualStreamIdMapping
        rw [if_pos rfl]
        simp only [hdel]
        show (if q = p then none else m.physicalClientStreamIdToVirtualStreamIdMapping q)
            = some w ↔ m.virtualStreamIdToPhysicalClientStreamIdMapping w = some q
        by_cases hq : q = p
        · subst hq
          rw [if_pos rfl]
          constructor
          · intro h
            exact absurd h (by simp)
          · intro h
            rw [(hinv q w).mpr h] at hdel
            exact Option.noConfusion hdel
        · rw [if_neg hq]
          exact hinv q w
      · unfold upsertPhysicalClientStreamIdToVirtualStreamIdMapping
        rw [if_pos rfl]
        simp only [hdel]
        show (if q = p then none else m.physicalClientStreamIdToVirtualStreamIdMapping q)
            ≠ some ""
        by_cases hq : q = p
        · rw [if_pos hq]
          simp
        · rw [if_neg hq]
          exact hne q
    · have hv0 : v0 ≠ "" := by
        intro h0
        exact hne p (by rw [hdel, h0])
      have htr : jsTruthy (some v0) = true := by simpa [jsTruthy] using hv0
      have hvirt0 : m.virtualStreamIdToPhysicalClientStreamIdMapping v0 = some p :=
        (hinv p v0).mp hdel
      refine ⟨fun q w => ?_, fun q => ?_⟩
      · unfold upsertPhysicalClientStreamIdToVirtualStreamIdMapping
        rw [if_pos rfl]
        simp only [hdel, htr, if_pos, Option.getD_some]
        show (if q = p then none else m.physicalClientStreamIdToVirtualStreamIdMapping q)
            = some w ↔
          (if w = v0 then none
           else m.virtualStreamIdToPhysicalClientStreamIdMapping w) = some q
        by_cases hq : q = p <;> by_cases hw : w = v0
        · rw [if_pos hq, if_pos hw]
          simp
        · rw [if_pos hq, if_neg hw]
          subst hq
          constructor
          · intro h
            exact absurd h (by simp)
          · intro h
            rw [(hinv q w).mpr h] at hdel
            exact absurd (Option.some.inj hdel) hw
        · rw [if_neg hq, if_pos hw]
          subst hw
          constructor
          · intro h
            have h2 := (hinv q w).mp h
            rw [hvirt0] at h2
            exact absurd (Option.some.inj h2).symm hq
          · intro h
            exact absurd h (by simp)
        · rw [if_neg hq, if_neg hw]
          exact hinv q w
      · unfold upsertPhysicalClientStreamIdToVirtualStreamIdMapping
        rw [if_pos rfl]
        simp only [hdel, htr, if_pos]
        show (if q = p then none else m.physicalClientStreamIdToVirtualStreamIdMapping q)
            ≠ some ""
        by_cases hq : q = p
        · rw [if_pos hq]
          simp
        · rw [if_neg hq]
          exact hne q
  · refine ⟨fun q w => ?_, fun q => ?_⟩
    · unfold upsertPhysicalClientStreamIdToVirtualStreamIdMapping
      rw [if_neg hvs]
      show (if q = p then some v else m.physicalClientStreamIdToVirtualStreamIdMapping q)
          = some w ↔
        (if w = v then some p else m.virtualStreamIdToPhysicalClientStreamIdMapping w)
          = some q
      by_cases hq : q = p <;> by_cases hw : w = v
      · rw [if_pos hq, if_pos hw]
        subst hq hw
        simp
      · rw [if_pos hq, if_neg hw]
        constructor
        · intro h
          exact absurd (Option.some.inj h).symm hw
        · intro h
          subst hq
          rw [(hinv q w).mpr h] at hp
          exact Option.noConfusion hp
      · rw [if_neg hq, if_pos hw]
        subst hw
        constructor
        · intro h
          rw [(hinv q w).mp h] at hv
          exact Option.noConfusion hv
        · intro h
          exact absurd (Option.some.inj h).symm hq
      · rw [if_neg hq, if_neg hw]
        exact hinv q w
    · unfold upsertPhysicalClientStreamIdToVirtualStreamIdMapping
      rw [if_neg hvs]
      show (if q = p then some v else m.physicalClientStreamIdToVirtualStreamIdMapping q)
          ≠ some ""
      by_cases hq : q = p
      · rw [if_pos hq]
        intro h
        exact hvne (Option.some.inj h)
      · rw [if_neg hq]
        exact hne q

theorem mappingOps_preserve (ops : List (String × String)) :
    ∀ m, MappingLinksInverse m → MappingNoEmpty m → ValidMappingOps m ops →
      MappingLinksInverse (ops.foldl (fun m op =>
        upsertPhysicalClientStreamIdToVirtualStreamIdMapping m op.1 op.2) m) ∧
      MappingNoEmpty (ops.foldl (fun m op =>
        upsertPhysicalClientStreamIdToVirtualStreamIdMapping m op.1 op.2) m) := by
  induction ops with
  | nil => exact fun m hinv hne _ => ⟨hinv, hne⟩
  | cons op rest ih =>
      intro m hinv hne hvalid
      obtain ⟨hok, hrest⟩ := hvalid
      obtain ⟨hinv', hne'⟩ := upsertMapping_preserves m op.1 op.2 hinv hne hok
      exact ih _ hinv' hne' hrest

/-- C6 (amended): after every finite sequence of source-selection
operations in which each non-sentinel insertion links a description
identifier and a roster identifier that are both currently unlinked (no
overwrites) and whose roster identifier is non-empty, plus arbitrary
sentinel `"-1"` deletions, the forward and reverse link maps are mutual
inverses. -/
theorem C6_link_maps_mutual_inverse_amended (ops : List (String × String))
    (hvalid : ValidMappingOps VSPSMappingManager.init ops) :
    ∀ p v,
      (runMappingOps ops).physicalClientStreamIdToVirtualStreamIdMapping p = some v ↔
      (runMappingOps ops).virtualStreamIdToPhysicalClientStreamIdMapping v = some p :=
  (mappingOps_preserve ops VSPSMappingManager.init
    (fun _ _ => by constructor <;> (intro h; exact Option.noConfusion h))
    (fun _ h => Option.noConfusion h) hvalid).1

/-- Counterexample to C6 as stated: overwriting the link of description
id `"1"` (first to roster id `"10"`, then to `"20"`) leaves the stale
reverse entry `"10" ↦ "1"` while the forward map holds `"1" ↦ "20"`, so
the maps are no longer mutual inverses. -/
theorem C6_link_maps_counterexample :
    (runMappingOps [("1", "10"), ("1", "20")]).virtualStreamIdToPhysicalClientStreamIdMapping
        "10" = some "1" ∧
    (runMappingOps [("1", "10"), ("1", "20")]).physicalClientStreamIdToVirtualStreamIdMapping
        "1" = some "20" ∧
    ¬ ((runMappingOps [("1", "10"), ("1", "20")]).physicalClientStreamIdToVirtualStreamIdMapping
        "1" = some "10") := by
  refine ⟨?_, ?_, ?_⟩ <;> decide

/-- Witness for the amended C6: two fresh insertions followed by a
sentinel delete of the first keep the maps mutual inverses (checked here
at the surviving link). -/
theorem C6_link_maps_mutual_inverse_amended_witness :
    (runMappingOps [("1", "10"), ("2", "20"), ("1", "-1")]).physicalClientStreamIdToVirtualStreamIdMapping
        "2" = some "20" ↔
    (runMappingOps [("1", "10"), ("2", "20"), ("1", "-1")]).virtualStreamIdToPhysicalClientStreamIdMapping
        "20" = some "2" := by
  refine C6_link_maps_mutual_inverse_amended [("1", "10"), ("2", "20"), ("1", "-1")]
    ?_ "2" "20"
  constructor
  · exact Or.inr ⟨rfl, rfl, by decide, by decide⟩
  constructor
  · exact Or.inr ⟨by decide, by decide, by decide, by decide⟩
  constructor
  · exact Or.inl rfl
  trivial

/-- C4 (amended): over the virtual streams that are a screenshare or
webcam, are not the agent's own outgoing stream, and have a resolved
physical stream (the filter of `getVirtualVideoStreamIdToSend`): the
selection returns none when the set is empty; the first active
screenshare when one exists; otherwise the active webcam of the
externally signalled dominant speaker when one exists; otherwise the
first eligible stream.  Provided the chosen identifier is non-empty, it
then resolves, through the reconciliation link, to the bound
`PhysicalStream` record, whose `serverStreamId` is what
`getVideoStreamIdToSend` emits.  (The proviso is forced: an
empty-string selection is falsy under `if (!virtualVideoStreamIdToSend)`
and takes the `"Video"`-key fallback instead — see the
counterexample.) -/
theorem C4_video_source_selection_amended (m : VSPSMappingManager) :
    (m.virtualStreams.filter (fun vs =>
        (vs.isScreenShare || vs.isWebcam) &&
        !jsTruthy (m.physicalClientStreamIdToVirtualStreamIdMapping vs.sourceId) &&
        jsTruthy (m.virtualStreamIdToPhysicalClientStreamIdMapping vs.sourceId)) = [] →
      getVirtualVideoStreamIdToSend m = none) ∧
    (∀ s, (m.virtualStreams.filter (fun vs =>
        (vs.isScreenShare || vs.isWebcam) &&
        !jsTruthy (m.physicalClientStreamIdToVirtualStreamIdMapping vs.sourceId) &&
        jsTruthy (m.virtualStreamIdToPhysicalClientStreamIdMapping vs.sourceId))).find?
          (fun vs => vs.isScreenShare && vs.isActive) = some s →
      getVirtualVideoStreamIdToSend m = some s.sourceId) ∧
    ((m.virtualStreams.filter (fun vs =>
        (vs.isScreenShare || vs.isWebcam) &&
        !jsTruthy (m.physicalClientStreamIdToVirtualStreamIdMapping vs.sourceId) &&
        jsTruthy (m.virtualStreamIdToPhysicalClientStreamIdMapping vs.sourceId))).find?
          (fun vs => vs.isScreenShare && vs.isActive) = none →
      ∀ dom, getDominantSpeaker m = some dom →
      ∀ w, (m.virtualStreams.filter (fun vs =>
        (vs.isScreenShare || vs.isWebcam) &&
        !jsTruthy (m.physicalClientStreamIdToVirtualStreamIdMapping vs.sourceId) &&
        jsTruthy (m.virtualStreamIdToPhysicalClientStreamIdMapping vs.sourceId))).find?
          (fun vs => vs.participant.id == dom.id && vs.isWebcam && vs.isActive) = some w →
      getVirtualVideoStreamIdToSend m = some w.sourceId) ∧
    ((m.virtualStreams.filter (fun vs =>
        (vs.isScreenShare || vs.isWebcam) &&
        !jsTruthy (m.physicalClientStreamIdToVirtualStreamIdMapping vs.sourceId) &&
        jsTruthy (m.virtualStreamIdToPhysicalClientStreamIdMapping vs.sourceId))).find?
          (fun vs => vs.isScreenShare && vs.isActive) = none →
      ((∀ dom, getDominantSpeaker m = some dom →
          (m.virtualStreams.filter (fun vs =>
            (vs.isScreenShare || vs.isWebcam) &&
            !jsTruthy (m.physicalClientStreamIdToVirtualStreamIdMapping vs.sourceId) &&
            jsTruthy (m.virtualStreamIdToPhysicalClientStreamIdMapping vs.sourceId))).find?
              (fun vs => vs.participant.id == dom.id && vs.isWebcam && vs.isActive) = none →
          getVirtualVideoStreamIdToSend m =
            ((m.virtualStreams.filter (fun vs =>
              (vs.isScreenShare || vs.isWebcam) &&
              !jsTruthy (m.physicalClientStreamIdToVirtualStreamIdMapping vs.sourceId) &&
              jsTruthy (m.virtualStreamIdToPhysicalClientStreamIdMapping vs.sourceId))).head?).map
                (·.sourceId)) ∧
       (getDominantSpeaker m = none →
          (m.virtualStreams.filter (fun vs =>
            (vs.isScreenShare || vs.isWebcam) &&
            !jsTruthy (m.physicalClientStreamIdToVirtualStreamIdMapping vs.sourceId) &&
            jsTruthy (m.virtualStreamIdToPhysicalClientStreamIdMapping vs.sourceId))) ≠ [] →
          getVirtualVideoStreamIdToSend m =
            ((m.virtualStreams.filter (fun vs =>
              (vs.isScreenShare || vs.isWebcam) &&
              !jsTruthy (m.physicalClientStreamIdToVirtualStreamIdMapping vs.sourceId) &&
              jsTruthy (m.virtualStreamIdToPhysicalClientStreamIdMapping vs.sourceId))).head?).map
                (·.sourceId)))) ∧
    (∀ vid, getVirtualVideoStreamIdToSend m = some vid → vid ≠ "" →
      ∀ cid, m.virtualStreamIdToPhysicalClientStreamIdMapping vid = some cid →
      ∀ rec, amGet m.physicalStreamsByClientStreamId cid = some rec →
      getVideoStreamIdToSend m = some rec.serverStreamId) := by
  refine ⟨?_, ?_, ?_, ?_, ?_⟩
  · intro hel
    simp only [getVirtualVideoStreamIdToSend, hel]
    rfl
  · intro s hfind
    have hne : m.virtualStreams.filter (fun vs =>
        (vs.isScreenShare || vs.isWebcam) &&
        !jsTruthy (m.physicalClientStreamIdToVirtualStreamIdMapping vs.sourceId) &&
        jsTruthy (m.virtualStreamIdToPhysicalClientStreamIdMapping vs.sourceId)) ≠ [] := by
      intro h0
      rw [h0] at hfind
      exact Option.noConfusion hfind
    simp only [getVirtualVideoStreamIdToSend, hfind]
    rw [if_neg (by simpa using hne)]
  · intro hss dom hdom w hw
    have hne : m.virtualStreams.filter (fun vs =>
        (vs.isScreenShare || vs.isWebcam) &&
        !jsTruthy (m.physicalClientStreamIdToVirtualStreamIdMapping vs.sourceId) &&
        jsTruthy (m.virtualStreamIdToPhysicalClientStreamIdMapping vs.sourceId)) ≠ [] := by
      intro h0
      rw [h0] at hw
      exact Option.noConfusion hw
    simp only [getVirtualVideoStreamIdToSend, hss, hdom, hw]
    rw [if_neg (by simpa using hne)]
  · intro hss
    constructor
    · intro dom hdom hw
      by_cases hel : m.virtualStreams.filter (fun vs =>
          (vs.isScreenShare || vs.isWebcam) &&
          !jsTruthy (m.physicalClientStreamIdToVirtualStreamIdMapping vs.sourceId) &&
          jsTruthy (m.virtualStreamIdToPhysicalClientStreamIdMapping vs.sourceId)) = []
      · simp only [getVirtualVideoStreamIdToSend, hel]
        rfl
      · simp only [getVirtualVideoStreamIdToSend, hss, hdom, hw]
        rw [if_neg (by simpa using hel)]
    · intro hdom hne
      simp only [getVirtualVideoStreamIdToSend, hss, hdom]
      rw [if_neg (by simpa using hne)]
  · intro vid hvid hvne cid hcid rec hrec
    simp [getVideoStreamIdToSend, hvid, jsTruthy, hvne, hcid, hrec]

/-- A manager whose only eligible roster stream (an active webcam) has
the empty string as its source identifier, yet carries a reconciliation
link `"" ↦ "7"` to a bound physical record with server id `"srvA"`. -/
def counterexampleStateC4 : VSPSMappingManager :=
  ⟨[⟨"", false, true, true, ⟨"P"⟩⟩],
   [("7", ⟨"7", "srvA"⟩)], [("srvA", ⟨"7", "srvA"⟩)],
   (fun _ => none),
   (fun k => if k = "" then some "7" else none),
   none⟩

/-- **C4 counterexample** to the original claim: the selection chooses
the empty-string virtual source id, which is linked to a bound physical
record with server id `"srvA"`; but the empty string is falsy under
`if (!virtualVideoStreamIdToSend)`, so `getVideoStreamIdToSend` takes
the `"Video"`-key fallback (here: no match) instead of returning the
bound record's server id. -/
theorem C4_video_source_selection_counterexample :
    getVirtualVideoStreamIdToSend counterexampleStateC4 = some "" ∧
    counterexampleStateC4.virtualStreamIdToPhysicalClientStreamIdMapping "" = some "7" ∧
    amGet counterexampleStateC4.physicalStreamsByClientStreamId "7" =
      some ⟨"7", "srvA"⟩ ∧
    getVideoStreamIdToSend counterexampleStateC4 ≠ some "srvA" :=
  ⟨by decide, by decide, by decide, by decide⟩

/-- Witness for C4 (amended) — the design-document scenario: the control
plane links description id `"55"` to roster id `"9"`; the roster marks
source `"9"` as an active webcam of participant `"P2"`, who is the
signalled dominant speaker; the selection resolves to the physical
stream bound to description id `"55"` and emits its server stream id. -/
theorem C4_video_source_selection_amended_witness :
    getVideoStreamIdToSend
      ⟨[⟨"9", false, true, true, ⟨"P2"⟩⟩],
       [("55", ⟨"55", "srv55"⟩)], [("srv55", ⟨"55", "srv55"⟩)],
       (fun k => if k = "55" then some "9" else none),
       (fun k => if k = "9" then some "55" else none),
       some "9"⟩ = some "srv55" := by
  obtain ⟨-, -, hwebcam, -, hres⟩ := C4_video_source_selection_amended
    ⟨[⟨"9", false, true, true, ⟨"P2"⟩⟩],
     [("55", ⟨"55", "srv55"⟩)], [("srv55", ⟨"55", "srv55"⟩)],
     (fun k => if k = "55" then some "9" else none),
     (fun k => if k = "9" then some "55" else none),
     some "9"⟩
  have hvid := hwebcam (by decide) ⟨"P2"⟩ (by decide)
    ⟨"9", false, true, true, ⟨"P2"⟩⟩ (by decide)
  exact hres "9" hvid (by decide) "55" (by decide) ⟨"55", "srv55"⟩ (by decide)

/-! ## Session-description parsing and ingestion

Embeds `parseSDP`, `extractMSID` and `extractStreamIdToSSRCMappingFromSDP`,
and ingestion into the mapping manager
(`upsertPhysicalStreams(extractStreamIdToSSRCMappingFromSDP(description.sdp))`,
the `setRemoteDescription` path).  String splitting is implemented on
character lists so that everything reduces in the kernel.  Attribute
values are `Option String`: `some s` for `a=key:value` lines and `none`
for valueless flag attributes (JS stores the boolean `true` there; no
live path feeds a flag value where a string is required, and the
degenerate flag-valued `x-source-streamid`, on which the JS would relay a
boolean, is modelled as the empty string). -/

/-- JS `split('\r\n')` on character lists. -/
def splitCRLFAux (acc : List Char) : List Char → List (List Char)
  | [] => [acc.reverse]
  | '\r' :: '\n' :: rest => acc.reverse :: splitCRLFAux [] rest
  | c :: rest => splitCRLFAux (c :: acc) rest

/-- JS `sdp.split('\r\n')`. -/
def splitCRLF (s : String) : List String := (splitCRLFAux [] s.data).map String.mk

/-- JS `split(' ')` on character lists. -/
def splitSpaceAux (acc : List Char) : List Char → List (List Char)
  | [] => [acc.reverse]
  | ' ' :: rest => acc.reverse :: splitSpaceAux [] rest
  | c :: rest => splitSpaceAux (c :: acc) rest

/-- JS `s.split(' ')`. -/
def splitSpace (s : String) : List String := (splitSpaceAux [] s.data).map String.mk

/-- Find the first `':'`: returns the characters before it and after it
(JS `indexOf(':')` plus the two `substring` calls). -/
def splitAtFirstColonAux (acc : List Char) : List Char → Option (List Char × List Char)
  | [] => none
  | ':' :: rest => some (acc.reverse, rest)
  | c :: rest => splitAtFirstColonAux (c :: acc) rest

/-- JS `s.startsWith(pre)`. -/
def strStartsWith (s pre : String) : Bool := pre.data.isPrefixOf s.data

/-- `attributes[key].push(value)`, creating the key in insertion order. -/
def addAttr (attrs : List (String × List (Option String))) (key : String)
    (value : Option String) : List (String × List (Option String)) :=
  if attrs.any (fun e => e.1 == key) then
    attrs.map (fun e => if e.1 == key then (e.1, e.2 ++ [value]) else e)
  else attrs ++ [(key, [value])]

/-- One media section of a parsed session description. -/
structure SDPMedia where
  type : String
  description : String
  attributes : List (String × List (Option String))
deriving DecidableEq, Repr

/-- The result of `parseSDP` (the later duplicate `c=`/`b=` media-level
branches in the source are unreachable — the session-level branches of
the same `else if` chain match first — and are not modelled). -/
structure ParsedSDP where
  media : List SDPMedia
  attributes : List (String × List (Option String))
  version : Option String
  origin : Option String
  session : Option String
  connection : Option String
  timing : Option String
  bandwidth : Option String
deriving DecidableEq, Repr

/-- Parser state: the media list is kept reversed so attribute lines
update the current (head) section. -/
structure SDPParseState where
  mediaRev : List SDPMedia
  attributes : List (String × List (Option String))
  version : Option String
  origin : Option String
  session : Option String
  connection : Option String
  timing : Option String
  bandwidth : Option String

/-- One iteration of the `parseSDP` line loop. -/
def parseSDPLine (st : SDPParseState) (line : String) : SDPParseState :=
  match line.data with
  | 'v' :: '=' :: rest => { st with version := some (String.mk rest) }
  | 'o' :: '=' :: rest => { st with origin := some (String.mk rest) }
  | 's' :: '=' :: rest => { st with session := some (String.mk rest) }
  | 'c' :: '=' :: rest => { st with connection := some (String.mk rest) }
  | 't' :: '=' :: rest => { st with timing := some (String.mk rest) }
  | 'b' :: '=' :: rest => { st with bandwidth := some (String.mk rest) }
  | 'm' :: '=' :: _ =>
      let mtype := String.mk (((splitSpaceAux [] line.data).headD []).drop 2)
      { st with mediaRev := ⟨mtype, line, []⟩ :: st.mediaRev }
  | 'a' :: '=' :: rest =>
      let kv :=
        match splitAtFirstColonAux [] rest with
        | some (k, v) => (String.mk k, some (String.mk v))
        | none => (String.mk rest, none)
      match st.mediaRev with
      | currentMedia :: others =>
          { st with mediaRev :=
              { currentMedia with
                attributes := addAttr currentMedia.attributes kv.1 kv.2 } :: others }
      | [] => { st with attributes := addAttr st.attributes kv.1 kv.2 }
  | _ => st

/-- `parseSDP`. -/
def parseSDP (sdp : String) : ParsedSDP :=
  let st := (splitCRLF sdp).foldl parseSDPLine ⟨[], [], none, none, none, none, none, none⟩
  ⟨st.mediaRev.reverse, st.attributes, st.version, st.origin, st.session,
   st.connection, st.timing, st.bandwidth⟩

/-- `extractMSID`: of a raw `a=ssrc:` value, the token after `msid:` (a
falsy — empty — value yields null; a flag-valued entry, on which the JS
would throw, yields null as well). -/
def extractMSID : Option String → Option String
  | none => none
  | some raw =>
      if raw = "" then none
      else
        match (splitSpaceAux [] raw.data).map String.mk |>.find?
            (fun part => strStartsWith part "msid:") with
        | some part => some (String.mk ((splitSpaceAux [] (part.data.drop 5)).headD []))
        | none => none

/-- `[...new Set(list)]`: dedup keeping first occurrences. -/
def jsSetDedup {α : Type} [BEq α] (l : List α) : List α :=
  l.foldl (fun acc x => if acc.contains x then acc else acc ++ [x]) []

/-- `attributes[key] || []`. -/
def getAttr (attrs : List (String × List (Option String))) (key : String) :
    List (Option String) :=
  match attrs.find? (fun e => e.1 == key) with
  | some e => e.2
  | none => []

/-- JS truthiness of `streamIds[0]` (possibly-undefined attribute
value). -/
def jsTruthyAttr : Option (Option String) → Bool
  | some (some s) => s ≠ ""
  | some none => true
  | none => false

/-- `extractStreamIdToSSRCMappingFromSDP`: per media section, the
deduplicated `msid` values of the `ssrc` lines crossed with the section's
first `x-source-streamid`; pairs with a falsy component are skipped. -/
def extractStreamIdToSSRCMappingFromSDP (sdp : String) : List PhysicalStream :=
  let parsedSDP := parseSDP sdp
  parsedSDP.media.foldl (fun mapping sdpMediaEntry =>
    let sdpMediaEntrySSRCNumbersRaw := getAttr sdpMediaEntry.attributes "ssrc"
    let sdpMediaEntrySSRCNumbers := jsSetDedup (sdpMediaEntrySSRCNumbersRaw.map extractMSID)
    let streamIds := getAttr sdpMediaEntry.attributes "x-source-streamid"
    let streamId := streamIds.head?
    sdpMediaEntrySSRCNumbers.foldl (fun mapping ssrc =>
      if jsTruthy ssrc && jsTruthyAttr streamId then
        mapping ++ [⟨(streamId.getD none).getD "", ssrc.getD ""⟩]
      else mapping) mapping) []

/-- Ingestion of a session description (the `setRemoteDescription`
interception): parse, extract, upsert. -/
def ingestSessionDescription (m : VSPSMappingManager) (sdp : String) :
    VSPSMappingManager :=
  upsertPhysicalStreams m (extractStreamIdToSSRCMappingFromSDP sdp)

/-- Deduplicating a non-empty list whose elements are all equal yields
the singleton. -/
theorem jsSetDedup_eq_single {α : Type} [BEq α] [LawfulBEq α] (a : α) (l : List α)
    (hne : l ≠ []) (hall : ∀ x ∈ l, x = a) : jsSetDedup l = [a] := by
  have aux : ∀ t : List α, (∀ y ∈ t, y = a) →
      t.foldl (fun acc x => if acc.contains x then acc else acc ++ [x]) [a] = [a] := by
    intro t
    induction t with
    | nil => intro _; rfl
    | cons y t' ih =>
        intro hy
        rw [List.foldl_cons, (hy y (by simp) ▸ rfl :
          (if List.contains [a] y then [a] else [a] ++ [y]) =
          (if List.contains [a] a then [a] else [a] ++ [a]))]
        rw [if_pos (by simp)]
        exact ih (fun z hz => hy z (by simp [hz]))
  rcases l with _ | ⟨x, t⟩
  · exact absurd rfl hne
  · unfold jsSetDedup
    rw [List.foldl_cons]
    have hx : x = a := hall x (by simp)
    subst hx
    rw [if_neg (by simp)]
    exact aux t (fun z hz => hall z (by simp [hz]))

/-- Membership is preserved by the dedup. -/
theorem jsSetDedup_subset {α : Type} [BEq α] (l : List α) :
    ∀ x ∈ jsSetDedup l, x ∈ l := by
  have aux : ∀ (t : List α) (acc : List α) (x : α),
      x ∈ t.foldl (fun acc x => if acc.contains x then acc else acc ++ [x]) acc →
      x ∈ acc ∨ x ∈ t := by
    intro t
    induction t with
    | nil => exact fun acc x h => Or.inl h
    | cons y t' ih =>
        intro acc x h
        rw [List.foldl_cons] at h
        rcases ih _ x h with hacc | ht
        · by_cases hc : acc.contains y
          · rw [if_pos hc] at hacc
            exact Or.inl hacc
          · rw [if_neg hc] at hacc
            rcases List.mem_append.mp hacc with h1 | h1
            · exact Or.inl h1
            · simp at h1
              exact Or.inr (by simp [h1])
        · exact Or.inr (by simp [ht])
  intro x h
  rcases aux l [] x h with h0 | h0
  · exact absurd h0 (by simp)
  · exact h0

/-- `Map.set` with the same key and value twice equals once. -/
theorem amSet_idem {β : Type} (m : List (String × β)) (k : String) (v : β) :
    amSet (amSet m k v) k v = amSet m k v := by
  unfold amSet
  by_cases h : m.any (fun e => e.1 == k)
  · rw [if_pos h]
    have h2 : (m.map (fun e => if e.1 == k then (k, v) else e)).any
        (fun e => e.1 == k) = true := by
      obtain ⟨e, hmem, hek⟩ := List.any_eq_true.mp h
      exact List.any_eq_true.mpr ⟨(k, v),
        List.mem_map.mpr ⟨e, hmem, by rw [if_pos hek]⟩, by simp⟩
    rw [if_pos h2, List.map_map]
    refine List.map_eq_map_iff.mpr ?_
    intro e _
    by_cases hek : e.1 == k
    · show (if ((if e.1 == k then (k, v) else e) : String × β).1 == k then (k, v)
        else (if e.1 == k then (k, v) else e)) = _
      rw [if_pos hek]
      simp
    · show (if ((if e.1 == k then (k, v) else e) : String × β).1 == k then (k, v)
        else (if e.1 == k then (k, v) else e)) = _
      rw [if_neg hek]
      rw [if_neg hek]
  · rw [if_neg h]
    have h2 : ((m ++ [(k, v)]).any (fun e => e.1 == k)) = true :=
      List.any_eq_true.mpr ⟨(k, v), by simp, by simp⟩
    rw [if_pos h2, List.map_append]
    have hall := List.any_eq_false.mp (Bool.eq_false_iff.mpr h)
    have hm : m.map (fun e => if e.1 == k then (k, v) else e) = m := by
      refine (List.map_eq_map_iff.mpr ?_).trans (List.map_id m)
      intro e he
      rw [if_neg (hall e he)]
      rfl
    rw [hm]
    show m ++ [if (k, v).1 == k then (k, v) else (k, v)] = m ++ [(k, v)]
    rw [if_pos (by simp)]

/-- A fold whose step never pushes leaves the accumulator unchanged. -/
theorem foldl_no_push {α β : Type} (f : β → α → β) (l : List α)
    (h : ∀ acc x, x ∈ l → f acc x = acc) : ∀ acc, l.foldl f acc = acc := by
  induction l with
  | nil => exact fun _ => rfl
  | cons y t ih =>
      intro acc
      rw [List.foldl_cons, h acc y (by simp)]
      exact ih (fun acc x hx => h acc x (by simp [hx])) acc

/-- C5: for a session description parsing to a single media section: when
the section's synchronization-source lines all carry one stream-grouping
(`msid`) identifier and the section has one roster-correlation
(`x-source-streamid`) identifier, ingestion produces exactly one
`PhysicalStream` record, indexed under both identifiers; a section
missing either identifier produces no record at all; and ingesting the
same description twice leaves the store equal to ingesting it once. -/
theorem C5_sdp_ingestion (sdp : String) (me : SDPMedia)
    (hmedia : (parseSDP sdp).media = [me]) :
    (∀ (vs : List (Option String)) (M sid : String),
      getAttr me.attributes "ssrc" = vs → vs ≠ [] →
      (∀ v ∈ vs, extractMSID v = some M) →
      getAttr me.attributes "x-source-streamid" = [some sid] →
      M ≠ "" → sid ≠ "" →
      extractStreamIdToSSRCMappingFromSDP sdp = [⟨sid, M⟩] ∧
      (ingestSessionDescription VSPSMappingManager.init sdp).physicalStreamsByClientStreamId =
        [(sid, ⟨sid, M⟩)] ∧
      (ingestSessionDescription VSPSMappingManager.init sdp).physicalStreamsByServerStreamId =
        [(M, ⟨sid, M⟩)] ∧
      (∀ st, ingestSessionDescription (ingestSessionDescription st sdp) sdp =
        ingestSessionDescription st sdp)) ∧
    ((getAttr me.attributes "x-source-streamid" = [] ∨
      (∀ v ∈ getAttr me.attributes "ssrc", jsTruthy (extractMSID v) = false)) →
      extractStreamIdToSSRCMappingFromSDP sdp = [] ∧
      ∀ st, ingestSessionDescription st sdp = st) := by
  constructor
  · intro vs M sid hvs hne hall hxs hM hsid
    have hdedup : jsSetDedup (vs.map extractMSID) = [some M] :=
      jsSetDedup_eq_single (some M) (vs.map extractMSID)
        (by simpa using hne)
        (by
          intro x hx
          obtain ⟨v, hv, hxv⟩ := List.mem_map.mp hx
          rw [← hxv]
          exact hall v hv)
    have hcond : (jsTruthy (some M) &&
        jsTruthyAttr (List.head? [some sid])) = true := by
      simp [jsTruthy, jsTruthyAttr, hM, hsid]
    have hextr : extractStreamIdToSSRCMappingFromSDP sdp = [⟨sid, M⟩] := by
      simp only [extractStreamIdToSSRCMappingFromSDP, hmedia, List.foldl_cons,
        List.foldl_nil]
      rw [hvs, hxs, hdedup, List.foldl_cons, List.foldl_nil, hcond]
      rw [if_pos rfl]
      rfl
    refine ⟨hextr, ?_, ?_, ?_⟩
    · show (upsertPhysicalStreams VSPSMappingManager.init
        (extractStreamIdToSSRCMappingFromSDP sdp)).physicalStreamsByClientStreamId = _
      rw [hextr]
      rfl
    · show (upsertPhysicalStreams VSPSMappingManager.init
        (extractStreamIdToSSRCMappingFromSDP sdp)).physicalStreamsByServerStreamId = _
      rw [hextr]
      rfl
    · intro st
      show upsertPhysicalStreams (upsertPhysicalStreams st
        (extractStreamIdToSSRCMappingFromSDP sdp)) (extractStreamIdToSSRCMappingFromSDP sdp) =
        upsertPhysicalStreams st (extractStreamIdToSSRCMappingFromSDP sdp)
      rw [hextr]
      show ({ st with
          physicalStreamsByClientStreamId :=
            amSet (amSet st.physicalStreamsByClientStreamId sid ⟨sid, M⟩) sid ⟨sid, M⟩,
          physicalStreamsByServerStreamId :=
            amSet (amSet st.physicalStreamsByServerStreamId M ⟨sid, M⟩) M ⟨sid, M⟩ } :
          VSPSMappingManager) =
        { st with
          physicalStreamsByClientStreamId :=
            amSet st.physicalStreamsByClientStreamId sid ⟨sid, M⟩,
          physicalStreamsByServerStreamId :=
            amSet st.physicalStreamsByServerStreamId M ⟨sid, M⟩ }
      rw [amSet_idem, amSet_idem]
  · intro hmiss
    have hextr : extractStreamIdToSSRCMappingFromSDP sdp = [] := by
      simp only [extractStreamIdToSSRCMappingFromSDP, hmedia, List.foldl_cons,
        List.foldl_nil]
      rcases hmiss with hxs | hfalsy
      · rw [hxs]
        refine foldl_no_push _ _ ?_ []
        intro acc x _
        show (if (jsTruthy x && jsTruthyAttr (List.head? ([] : List (Option String))))
            = true then _ else acc) = acc
        rw [show jsTruthyAttr (List.head? ([] : List (Option String))) = false from rfl,
          Bool.and_false]
        rfl
      · refine foldl_no_push _ _ ?_ []
        intro acc x hx
        obtain ⟨v, hv, hxv⟩ :=
          List.mem_map.mp (jsSetDedup_subset _ x hx)
        show (if (jsTruthy x && _) = true then _ else acc) = acc
        rw [← hxv, hfalsy v hv, Bool.false_and]
        rfl
    refine ⟨hextr, ?_⟩
    intro st
    show upsertPhysicalStreams st (extractStreamIdToSSRCMappingFromSDP sdp) = st
    rw [hextr]
    rfl

/-- Witness for C5: a description with one video section carrying two
`a=ssrc` lines that share `msid:streamA` and one
`a=x-source-streamid:55` yields exactly the record `⟨"55", "streamA"⟩`,
indexed under both identifiers, and re-ingestion is a no-op. -/
theorem C5_sdp_ingestion_witness :
    extractStreamIdToSSRCMappingFromSDP
      "v=0\r\nm=video 9 RTP 96\r\na=ssrc:123 msid:streamA trackA\r\na=ssrc:456 msid:streamA trackA\r\na=x-source-streamid:55"
      = [⟨"55", "streamA"⟩] ∧
    (ingestSessionDescription VSPSMappingManager.init
      "v=0\r\nm=video 9 RTP 96\r\na=ssrc:123 msid:streamA trackA\r\na=ssrc:456 msid:streamA trackA\r\na=x-source-streamid:55").physicalStreamsByClientStreamId
      = [("55", ⟨"55", "streamA"⟩)] ∧
    (ingestSessionDescription VSPSMappingManager.init
      "v=0\r\nm=video 9 RTP 96\r\na=ssrc:123 msid:streamA trackA\r\na=ssrc:456 msid:streamA trackA\r\na=x-source-streamid:55").physicalStreamsByServerStreamId
      = [("streamA", ⟨"55", "streamA"⟩)] ∧
    ingestSessionDescription (ingestSessionDescription VSPSMappingManager.init
      "v=0\r\nm=video 9 RTP 96\r\na=ssrc:123 msid:streamA trackA\r\na=ssrc:456 msid:streamA trackA\r\na=x-source-streamid:55")
      "v=0\r\nm=video 9 RTP 96\r\na=ssrc:123 msid:streamA trackA\r\na=ssrc:456 msid:streamA trackA\r\na=x-source-streamid:55"
      = ingestSessionDescription VSPSMappingManager.init
      "v=0\r\nm=video 9 RTP 96\r\na=ssrc:123 msid:streamA trackA\r\na=ssrc:456 msid:streamA trackA\r\na=x-source-streamid:55" := by
  obtain ⟨hmain, -⟩ := C5_sdp_ingestion
    "v=0\r\nm=video 9 RTP 96\r\na=ssrc:123 msid:streamA trackA\r\na=ssrc:456 msid:streamA trackA\r\na=x-source-streamid:55"
    ⟨"video", "m=video 9 RTP 96",
      [("ssrc", [some "123 msid:streamA trackA", some "456 msid:streamA trackA"]),
       ("x-source-streamid", [some "55"])]⟩
    (by decide)
  obtain ⟨h1, h2, h3, h4⟩ := hmain
    [some "123 msid:streamA trackA", some "456 msid:streamA trackA"] "streamA" "55"
    (by decide) (by decide) (by decide) (by decide) (by decide) (by decide)
  exact ⟨h1, h2, h3, h4 VSPSMappingManager.init⟩

/-! ## Output scheduler (`BotOutputManager`)

Embeds `playPCMAudio`'s enqueue and the `_processAudioQueue` drain loop.
Times are rationals (seconds on the audio clock; a chunk's duration is
`data.length / (numChannels * sampleRate)`).  A drain invocation is
modelled with its `audioContext.currentTime`; the 80%-lookahead timer
that schedules the next invocation, and the 2000 ms mic-off hold, are
timing policy outside this claim and are not modelled.  `nextPlayTime`
is `Option ℚ`; the JS guard `!this.nextPlayTime` is true both for the
initial `undefined` and for the (falsy) number 0. -/

/-- One queued outbound chunk (`{data, duration}`), payload abstracted. -/
structure OutboundChunk where
  data : Nat
  duration : ℚ
deriving DecidableEq, Repr

/-- Observable scheduler state; `scheduled` is a history variable
recording each `source.start(nextPlayTime)` call as (start, duration). -/
structure BotOutputManager where
  audioQueue : List OutboundChunk
  nextPlayTime : Option ℚ
  isPlayingAudioQueue : Bool
  scheduled : List (ℚ × ℚ)
deriving DecidableEq, Repr

def BotOutputManager.init : BotOutputManager := ⟨[], none, false, []⟩

/-- The enqueue step of `playPCMAudio` (mic-on and the mic-off timer
cancel are not modelled). -/
def playPCMAudio (st : BotOutputManager) (chunk : OutboundChunk) : BotOutputManager :=
  { st with audioQueue := st.audioQueue ++ [chunk] }

/-- One `_processAudioQueue` invocation at clock time `currentTime`:
on an empty queue just clear the playing flag; otherwise catch up
`nextPlayTime` when it is unset (or falsy 0) or behind the clock,
schedule the head chunk to start exactly at `nextPlayTime`, and advance
`nextPlayTime` by the chunk's duration. -/
def processOutputQueue (currentTime : ℚ) (st : BotOutputManager) : BotOutputManager :=
  match st.audioQueue with
  | [] => { st with isPlayingAudioQueue := false }
  | chunk :: rest =>
      let nextPlayTime :=
        match st.nextPlayTime with
        | none => currentTime
        | some t => if t = 0 ∨ t < currentTime then currentTime else t
      { audioQueue := rest,
        nextPlayTime := some (nextPlayTime + chunk.duration),
        isPlayingAudioQueue := true,
        scheduled := st.scheduled ++ [(nextPlayTime, chunk.duration)] }

/-- Run a sequence of drain invocations at the given clock times. -/
def runOutputDrains (st : BotOutputManager) (times : List ℚ) : BotOutputManager :=
  times.foldl (fun s t => processOutputQueue t s) st

/-- Clock times that never overtake the play anchor: each invocation
happens at or before the current `nextPlayTime` (the source's
80%-of-remaining-time lookahead timer guarantees this when timers fire
on schedule). -/
def TimesOk (anchor D : ℚ) : List ℚ → Prop
  | [] => True
  | t :: ts => t ≤ anchor ∧ TimesOk (anchor + D) D ts

theorem playPCMAudio_foldl (chunks : List OutboundChunk) :
    ∀ st : BotOutputManager, chunks.foldl playPCMAudio st =
      { st with audioQueue := st.audioQueue ++ chunks } := by
  induction chunks with
  | nil => intro st; simp
  | cons c t ih =>
      intro st
      rw [List.foldl_cons, ih]
      simp [playPCMAudio]

theorem drains_closed_form (D : ℚ) (hD : 0 ≤ D) (chunks : List OutboundChunk) :
    ∀ (times : List ℚ) (anchor : ℚ) (pre : List (ℚ × ℚ)) (b : Bool),
      0 < anchor → times.length = chunks.length →
      (∀ c ∈ chunks, c.duration = D) → TimesOk anchor D times →
      (runOutputDrains ⟨chunks, some anchor, b, pre⟩ times).scheduled =
        pre ++ (List.range chunks.length).map (fun i : Nat => (anchor + (i : ℚ) * D, D)) := by
  induction chunks with
  | nil =>
      intro times anchor pre b _ hlen _ _
      rcases times with _ | ⟨t, ts⟩
      · simp [runOutputDrains]
      · simp at hlen
  | cons c cs ih =>
      intro times anchor pre b hanchor hlen hdur hok
      rcases times with _ | ⟨t, ts⟩
      · simp at hlen
      · obtain ⟨hta, hok'⟩ := hok
        have hcd : c.duration = D := hdur c (by simp)
        have hstep : processOutputQueue t ⟨c :: cs, some anchor, b, pre⟩ =
            ⟨cs, some (anchor + D), true, pre ++ [(anchor, D)]⟩ := by
          show (⟨cs, some ((if anchor = 0 ∨ anchor < t then t else anchor) + c.duration),
            true, pre ++ [((if anchor = 0 ∨ anchor < t then t else anchor), c.duration)]⟩ :
              BotOutputManager) = _
          rw [if_neg (by
            rintro (h0 | hlt)
            · exact absurd h0 (ne_of_gt hanchor)
            · exact absurd hlt (not_lt.mpr hta)), hcd]
        show (runOutputDrains (processOutputQueue t ⟨c :: cs, some anchor, b, pre⟩)
          ts).scheduled = _
        rw [hstep, ih ts (anchor + D) (pre ++ [(anchor, D)]) true
          (by linarith) (by simpa using hlen)
          (fun x hx => hdur x (by simp [hx])) hok']
        rw [List.append_assoc]
        congr 1
        rw [show (c :: cs).length = cs.length + 1 from rfl,
          List.range_succ_eq_map, List.map_cons, List.map_map, List.singleton_append]
        congr 1
        · simp
        · refine List.map_eq_map_iff.mpr ?_
          intro i _
          show (anchor + D + (i : ℚ) * D, D) = (anchor + ((i + 1 : Nat) : ℚ) * D, D)
          congr 1
          push_cast
          ring

theorem range_map_shift (x D : ℚ) (n : Nat) :
    (x, D) :: (List.range n).map (fun i : Nat => (x + D + (i : ℚ) * D, D)) =
      (List.range (n + 1)).map (fun i : Nat => (x + (i : ℚ) * D, D)) := by
  rw [List.range_succ_eq_map, List.map_cons, List.map_map]
  congr 1
  · simp
  · refine List.map_eq_map_iff.mpr ?_
    intro i _
    show (x + D + (i : ℚ) * D, D) = (x + ((i + 1 : Nat) : ℚ) * D, D)
    congr 1
    push_cast
    ring

/-- C7: enqueuing N chunks of one fixed duration D back-to-back before
any drain runs, then letting the drain loop fire (each invocation at or
before the current play anchor, as the lookahead timer arranges),
produces N scheduled start times exactly D apart — each drain schedules
the head chunk to start exactly at `nextPlayTime` and advances
`nextPlayTime` by the chunk's duration, resetting it to the clock only
when it is unset or behind the clock — and consecutive scheduled chunks
do not overlap. -/
theorem C7_output_scheduler (D : ℚ) (hD : 0 ≤ D) (chunks : List OutboundChunk)
    (hdur : ∀ c ∈ chunks, c.duration = D)
    (t₁ : ℚ) (ht1 : 0 < t₁) (ts : List ℚ)
    (hlen : ts.length + 1 = chunks.length)
    (hok : TimesOk (t₁ + D) D ts) :
    (runOutputDrains (chunks.foldl playPCMAudio BotOutputManager.init)
        (t₁ :: ts)).scheduled =
      (List.range chunks.length).map (fun i : Nat => (t₁ + (i : ℚ) * D, D)) ∧
    List.Chain' (fun a b => b = a + D ∧ a + D ≤ b)
      (((runOutputDrains (chunks.foldl playPCMAudio BotOutputManager.init)
        (t₁ :: ts)).scheduled).map (·.1)) := by
  have hinit : chunks.foldl playPCMAudio BotOutputManager.init =
      ⟨chunks, none, false, []⟩ := by
    rw [playPCMAudio_foldl]
    rfl
  rcases chunks with _ | ⟨c, cs⟩
  · simp at hlen
  · have hcd : c.duration = D := hdur c (by simp)
    have hstep : processOutputQueue t₁ ⟨c :: cs, none, false, []⟩ =
        ⟨cs, some (t₁ + D), true, [(t₁, D)]⟩ := by
      show (⟨cs, some (t₁ + c.duration), true, [] ++ [(t₁, c.duration)]⟩ :
        BotOutputManager) = _
      rw [hcd]
      rfl
    have hsched : (runOutputDrains ((c :: cs).foldl playPCMAudio BotOutputManager.init)
        (t₁ :: ts)).scheduled =
        (List.range (c :: cs).length).map (fun i : Nat => (t₁ + (i : ℚ) * D, D)) := by
      rw [hinit]
      show (runOutputDrains (processOutputQueue t₁ ⟨c :: cs, none, false, []⟩)
        ts).scheduled = _
      rw [hstep, drains_closed_form D hD cs ts (t₁ + D) [(t₁, D)] true
        (by linarith) (by simpa using hlen) (fun x hx => hdur x (by simp [hx])) hok]
      rw [List.singleton_append, show (c :: cs).length = cs.length + 1 from rfl]
      exact range_map_shift t₁ D cs.length
    refine ⟨hsched, ?_⟩
    rw [hsched, List.map_map]
    rw [show ((fun p : ℚ × ℚ => p.1) ∘ (fun i : Nat => (t₁ + (i : ℚ) * D, D))) =
      (fun i : Nat => t₁ + (i : ℚ) * D) from rfl]
    rw [List.chain'_map]
    rw [show (c :: cs).length = cs.length + 1 from rfl]
    refine (List.chain'_range_succ _ cs.length).mpr ?_
    intro m _
    constructor
    · push_cast
      ring
    · push_cast
      nlinarith [hD]

/-- Witness for C7: two unit-duration chunks enqueued before drains at
clock times 1 and 2 are scheduled to start at 1 and 2. -/
theorem C7_output_scheduler_witness :
    (runOutputDrains ([⟨5, 1⟩, ⟨6, 1⟩].foldl playPCMAudio BotOutputManager.init)
      [1, 2]).scheduled = [(1, 1), (2, 1)] := by
  obtain ⟨hform, -⟩ := C7_output_scheduler 1 zero_le_one
    [⟨5, 1⟩, ⟨6, 1⟩] (by simp) 1 zero_lt_one [2] rfl
    ⟨le_of_eq one_add_one_eq_two.symm, trivial⟩
  refine hform.trans ?_
  show (List.range 2).map (fun i : Nat => ((1 : ℚ) + (i : ℚ) * 1, (1 : ℚ)))
    = [(1, 1), (2, 1)]
  simp [List.range_succ, one_add_one_eq_two]

/-! ## Binary wire framing (`WebSocketClient`)

Embeds the byte layout produced by `sendPerParticipantAudio` and
`sendVideo` (`MESSAGE_TYPES`: `VIDEO = 2`, `PER_PARTICIPANT_AUDIO = 5`;
all multi-byte integers little-endian via `DataView.setInt32` /
`setBigInt64`, which store two's complement, and `setUint8`, which wraps
modulo 256).  Messages are byte lists; the participant id and stream id
appear as their UTF-8 byte sequences.  The decoders follow the wire
layout stated in the design document (the receiver is outside this
repository) and are compared with the encoders byte for byte. -/

/-- `w` little-endian bytes of `n` (dropping higher bits). -/
def natToBytesLE : Nat → Nat → List Nat
  | 0, _ => []
  | w + 1, n => n % 256 :: natToBytesLE w (n / 256)

/-- Read a little-endian byte list as a natural number. -/
def bytesToNatLE : List Nat → Nat
  | [] => 0
  | b :: rest => b + 256 * bytesToNatLE rest

/-- `DataView.setInt32`/`setBigInt64` with little-endian flag: the two's
complement bytes of `v`. -/
def intToBytesLE (w : Nat) (v : Int) : List Nat :=
  natToBytesLE w ((v % (256 : Int) ^ w).toNat)

/-- Read `w` little-endian bytes as a signed (two's complement)
integer. -/
def bytesToIntLE (w : Nat) (bs : List Nat) : Int :=
  let n := bytesToNatLE bs
  if 2 * n < 256 ^ w then (n : Int) else (n : Int) - (256 : Int) ^ w

/-- `WebSocketClient.sendPerParticipantAudio`: 4-byte type tag `5`, one
length byte (wrapping at 256), the participant-id bytes, then the sample
payload. -/
def sendPerParticipantAudio (participantIdBytes audioData : List Nat) : List Nat :=
  intToBytesLE 4 5 ++ [participantIdBytes.length % 256] ++ participantIdBytes ++ audioData

/-- `WebSocketClient.sendVideo`: 4-byte type tag `2`, 8-byte timestamp,
4-byte stream-id length, the stream-id bytes, 4-byte width, 4-byte
height, then the pixel payload. -/
def sendVideo (timestamp : Int) (streamIdBytes : List Nat) (width height : Int)
    (videoData : List Nat) : List Nat :=
  intToBytesLE 4 2 ++ intToBytesLE 8 timestamp ++
    intToBytesLE 4 (streamIdBytes.length : Int) ++ streamIdBytes ++
    intToBytesLE 4 width ++ intToBytesLE 4 height ++ videoData

/-- Decoder for `PER_PARTICIPANT_AUDIO` per the documented layout:
(type tag, participant-id bytes, payload). -/
def decodePerParticipantAudio (msg : List Nat) : Option (Int × List Nat × List Nat) :=
  if 5 ≤ msg.length then
    let typeTag := bytesToIntLE 4 (msg.take 4)
    let lenByte := (msg.drop 4).headD 0
    let rest := msg.drop 5
    if lenByte ≤ rest.length then
      some (typeTag, rest.take lenByte, rest.drop lenByte)
    else none
  else none

/-- Decoder for `VIDEO` per the documented layout:
(type tag, timestamp, stream-id bytes, width, height, payload). -/
def decodeVideo (msg : List Nat) : Option (Int × Int × List Nat × Int × Int × List Nat) :=
  if 16 ≤ msg.length then
    let typeTag := bytesToIntLE 4 (msg.take 4)
    let timestamp := bytesToIntLE 8 ((msg.drop 4).take 8)
    let sidLen := bytesToNatLE ((msg.drop 12).take 4)
    let rest := msg.drop 16
    if sidLen + 8 ≤ rest.length then
      some (typeTag, timestamp, rest.take sidLen,
        bytesToIntLE 4 ((rest.drop sidLen).take 4),
        bytesToIntLE 4 (((rest.drop sidLen).drop 4).take 4),
        (rest.drop sidLen).drop 8)
    else none
  else none

theorem natToBytesLE_length (w : Nat) : ∀ n, (natToBytesLE w n).length = w := by
  induction w with
  | zero => intro n; rfl
  | succ w ih =>
      intro n
      show (natToBytesLE w (n / 256)).length + 1 = w + 1
      rw [ih]

theorem bytesToNatLE_natToBytesLE (w : Nat) : ∀ n,
    bytesToNatLE (natToBytesLE w n) = n % 256 ^ w := by
  induction w with
  | zero => intro n; simp [natToBytesLE, bytesToNatLE, Nat.mod_one]
  | succ w ih =>
      intro n
      show n % 256 + 256 * bytesToNatLE (natToBytesLE w (n / 256)) = n % 256 ^ (w + 1)
      rw [ih, pow_succ, mul_comm (256 ^ w) 256, Nat.mod_mul]

theorem intToBytesLE_length (w : Nat) (v : Int) : (intToBytesLE w v).length = w :=
  natToBytesLE_length w _

/-- The two's complement round trip for values in range. -/
theorem bytesToIntLE_intToBytesLE (w : Nat) (v : Int)
    (h1 : 0 ≤ 2 * v + 256 ^ w) (h2 : 2 * v < 256 ^ w) :
    bytesToIntLE w (intToBytesLE w v) = v := by
  have hMpos : (0 : Int) < 256 ^ w := by positivity
  have hmodge : 0 ≤ v % (256 : Int) ^ w := Int.emod_nonneg v (ne_of_gt hMpos)
  have hmodlt : v % (256 : Int) ^ w < 256 ^ w := Int.emod_lt_of_pos v hMpos
  have hcastpow : ((256 ^ w : Nat) : Int) = (256 : Int) ^ w := by push_cast; rfl
  have hnatlt : (v % (256 : Int) ^ w).toNat < 256 ^ w := by omega
  have hn : bytesToNatLE (natToBytesLE w ((v % (256 : Int) ^ w).toNat)) =
      (v % (256 : Int) ^ w).toNat := by
    rw [bytesToNatLE_natToBytesLE, Nat.mod_eq_of_lt hnatlt]
  unfold bytesToIntLE intToBytesLE
  rw [hn]
  rcases le_or_lt 0 v with hv | hv
  · have hvlt : v < 256 ^ w := by linarith
    have hmod : v % (256 : Int) ^ w = v := Int.emod_eq_of_lt hv hvlt
    rw [hmod]
    have hcond : 2 * v.toNat < 256 ^ w := by omega
    rw [if_pos hcond, Int.toNat_of_nonneg hv]
  · have hvM : v % (256 : Int) ^ w = v + 256 ^ w := by
      rw [show v % (256 : Int) ^ w = (v + 256 ^ w) % (256 : Int) ^ w from
        (Int.add_emod_self).symm]
      exact Int.emod_eq_of_lt (by linarith) (by linarith)
    rw [hvM]
    have hcond : ¬ 2 * (v + 256 ^ w).toNat < 256 ^ w := by omega
    rw [if_neg hcond, Int.toNat_of_nonneg (show (0 : Int) ≤ v + 256 ^ w by linarith)]
    ring

/-- The unsigned round trip for lengths in range. -/
theorem bytesToNatLE_intToBytesLE_ofNat (w : Nat) (n : Nat) (h : n < 256 ^ w) :
    bytesToNatLE (intToBytesLE w (n : Int)) = n := by
  unfold intToBytesLE
  have hmod : (n : Int) % (256 : Int) ^ w = (n : Int) := by
    refine Int.emod_eq_of_lt (by positivity) ?_
    exact_mod_cast h
  rw [hmod, Int.toNat_natCast, bytesToNatLE_natToBytesLE, Nat.mod_eq_of_lt h]

theorem append_take_drop (A B : List Nat) (n : Nat) (h : A.length = n) :
    (A ++ B).take n = A ∧ (A ++ B).drop n = B := by
  subst h
  refine ⟨?_, ?_⟩
  · rw [List.take_left]
  · rw [List.drop_left]

/-- **C8**: every encoded wire message follows the stated framing (all
integers little-endian): a 4-byte type tag, then for
`PER_PARTICIPANT_AUDIO` (tag 5) a 1-byte participant-id length, the
participant-id bytes and the sample payload, and for `VIDEO` (tag 2) an
8-byte timestamp, 4-byte stream-id length, stream-id bytes, 4-byte
width, 4-byte height and pixel payload; decoding a message per this
layout recovers every field bit-for-bit, including zero-length and
maximum-length (255-byte) participant identifiers.  The ranges are
those of the JS producers: the length byte is written with `setUint8`,
the timestamp with `setBigInt64` and the 4-byte fields with
`setInt32`. -/
theorem C8_wire_framing :
    (∀ pid audio : List Nat, pid.length ≤ 255 →
      (sendPerParticipantAudio pid audio).take 4 = [5, 0, 0, 0] ∧
      decodePerParticipantAudio (sendPerParticipantAudio pid audio) =
        some (5, pid, audio)) ∧
    (∀ (ts : Int) (sid : List Nat) (wd ht : Int) (payload : List Nat),
      -(2 ^ 63) ≤ ts → ts < 2 ^ 63 → sid.length < 2 ^ 31 →
      -(2 ^ 31) ≤ wd → wd < 2 ^ 31 → -(2 ^ 31) ≤ ht → ht < 2 ^ 31 →
      (sendVideo ts sid wd ht payload).take 4 = [2, 0, 0, 0] ∧
      decodeVideo (sendVideo ts sid wd ht payload) =
        some (2, ts, sid, wd, ht, payload)) := by
  constructor
  · intro pid audio hlen
    have hA : intToBytesLE 4 (5 : Int) = [5, 0, 0, 0] := by decide
    have hm : pid.length % 256 = pid.length := Nat.mod_eq_of_lt (by omega)
    have e : sendPerParticipantAudio pid audio
        = 5 :: 0 :: 0 :: 0 :: pid.length :: (pid ++ audio) := by
      simp [sendPerParticipantAudio, hA, hm]
    constructor
    · rw [e]; rfl
    · rw [e]
      simp only [decodePerParticipantAudio]
      have hc1 : 5 ≤ (5 :: 0 :: 0 :: 0 :: pid.length :: (pid ++ audio) : List Nat).length := by
        simp [List.length_cons]
      rw [if_pos hc1]
      have h1 : (5 :: 0 :: 0 :: 0 :: pid.length :: (pid ++ audio) : List Nat).take 4
          = [5, 0, 0, 0] := rfl
      have h2 : ((5 :: 0 :: 0 :: 0 :: pid.length :: (pid ++ audio) : List Nat).drop 4).headD 0
          = pid.length := rfl
      have h3 : (5 :: 0 :: 0 :: 0 :: pid.length :: (pid ++ audio) : List Nat).drop 5
          = pid ++ audio := rfl
      rw [h1, h2, h3]
      have hcnd : pid.length ≤ (pid ++ audio).length := by
        rw [List.length_append]; omega
      rw [if_pos hcnd, List.take_left, List.drop_left]
      have htag5 : bytesToIntLE 4 [5, 0, 0, 0] = 5 := by decide
      rw [htag5]
  · intro ts sid wd ht payload hts1 hts2 hsl hw1 hw2 hh1 hh2
    have hT : (intToBytesLE 4 (2 : Int)).length = 4 := intToBytesLE_length 4 2
    have hTS : (intToBytesLE 8 ts).length = 8 := intToBytesLE_length 8 ts
    have hL : (intToBytesLE 4 ((sid.length : Nat) : Int)).length = 4 :=
      intToBytesLE_length 4 _
    have hW : (intToBytesLE 4 wd).length = 4 := intToBytesLE_length 4 wd
    have hH : (intToBytesLE 4 ht).length = 4 := intToBytesLE_length 4 ht
    have e1 : sendVideo ts sid wd ht payload
        = intToBytesLE 4 2 ++ (intToBytesLE 8 ts ++ (intToBytesLE 4 ((sid.length : Nat) : Int)
          ++ (sid ++ (intToBytesLE 4 wd ++ (intToBytesLE 4 ht ++ payload))))) := by
      simp [sendVideo, List.append_assoc]
    have e3 : sendVideo ts sid wd ht payload
        = (intToBytesLE 4 2 ++ intToBytesLE 8 ts) ++ (intToBytesLE 4 ((sid.length : Nat) : Int)
          ++ (sid ++ (intToBytesLE 4 wd ++ (intToBytesLE 4 ht ++ payload)))) := by
      simp [sendVideo, List.append_assoc]
    have e4 : sendVideo ts sid wd ht payload
        = ((intToBytesLE 4 2 ++ intToBytesLE 8 ts) ++ intToBytesLE 4 ((sid.length : Nat) : Int))
          ++ (sid ++ (intToBytesLE 4 wd ++ (intToBytesLE 4 ht ++ payload))) := by
      simp [sendVideo, List.append_assoc]
    have hT12 : (intToBytesLE 4 (2 : Int) ++ intToBytesLE 8 ts).length = 12 := by
      rw [List.length_append, hT, hTS]
    have hT16 : ((intToBytesLE 4 (2 : Int) ++ intToBytesLE 8 ts)
        ++ intToBytesLE 4 ((sid.length : Nat) : Int)).length = 16 := by
      rw [List.length_append, hT12, hL]
    have f1 : (sendVideo ts sid wd ht payload).take 4 = intToBytesLE 4 2 := by
      rw [e1]; exact (append_take_drop _ _ 4 hT).1
    have f2 : (sendVideo ts sid wd ht payload).drop 4
        = intToBytesLE 8 ts ++ (intToBytesLE 4 ((sid.length : Nat) : Int)
          ++ (sid ++ (intToBytesLE 4 wd ++ (intToBytesLE 4 ht ++ payload)))) := by
      rw [e1]; exact (append_take_drop _ _ 4 hT).2
    have f3 : ((sendVideo ts sid wd ht payload).drop 4).take 8 = intToBytesLE 8 ts := by
      rw [f2]; exact (append_take_drop _ _ 8 hTS).1
    have f5 : (sendVideo ts sid wd ht payload).drop 12
        = intToBytesLE 4 ((sid.length : Nat) : Int)
          ++ (sid ++ (intToBytesLE 4 wd ++ (intToBytesLE 4 ht ++ payload))) := by
      rw [e3]; exact (append_take_drop _ _ 12 hT12).2
    have f6 : ((sendVideo ts sid wd ht payload).drop 12).take 4
        = intToBytesLE 4 ((sid.length : Nat) : Int) := by
      rw [f5]; exact (append_take_drop _ _ 4 hL).1
    have f7 : (sendVideo ts sid wd ht payload).drop 16
        = sid ++ (intToBytesLE 4 wd ++ (intToBytesLE 4 ht ++ payload)) := by
      rw [e4]; exact (append_take_drop _ _ 16 hT16).2
    have hp31 : (2 : Nat) ^ 31 < 256 ^ 4 := by norm_num
    have h_slen : bytesToNatLE (intToBytesLE 4 ((sid.length : Nat) : Int)) = sid.length :=
      bytesToNatLE_intToBytesLE_ofNat 4 sid.length (lt_trans hsl hp31)
    have hp64 : (256 : Int) ^ 8 = 2 ^ 64 := by norm_num
    have hp32 : (256 : Int) ^ 4 = 2 ^ 32 := by norm_num
    have h2_64 : (2 : Int) ^ 64 = 2 * 2 ^ 63 := by ring
    have h2_32 : (2 : Int) ^ 32 = 2 * 2 ^ 31 := by ring
    have hts' : bytesToIntLE 8 (intToBytesLE 8 ts) = ts := by
      refine bytesToIntLE_intToBytesLE 8 ts ?_ ?_
      · rw [hp64, h2_64]; linarith
      · rw [hp64, h2_64]; linarith
    have hwd' : bytesToIntLE 4 (intToBytesLE 4 wd) = wd := by
      refine bytesToIntLE_intToBytesLE 4 wd ?_ ?_
      · rw [hp32, h2_32]; linarith
      · rw [hp32, h2_32]; linarith
    have hht' : bytesToIntLE 4 (intToBytesLE 4 ht) = ht := by
      refine bytesToIntLE_intToBytesLE 4 ht ?_ ?_
      · rw [hp32, h2_32]; linarith
      · rw [hp32, h2_32]; linarith
    constructor
    · have h2T : intToBytesLE 4 (2 : Int) = [2, 0, 0, 0] := by decide
      rw [e1, h2T]; rfl
    · simp only [decodeVideo]
      rw [f6, h_slen, f1, f3, f7]
      have hc16 : 16 ≤ (sendVideo ts sid wd ht payload).length := by
        rw [e4, List.length_append, hT16]; omega
      rw [if_pos hc16]
      have hc2 : sid.length + 8
          ≤ (sid ++ (intToBytesLE 4 wd ++ (intToBytesLE 4 ht ++ payload))).length := by
        rw [List.length_append, List.length_append, List.length_append, hW, hH]; omega
      rw [if_pos hc2, List.take_left, List.drop_left]
      have g1 : (intToBytesLE 4 wd ++ (intToBytesLE 4 ht ++ payload)).take 4
          = intToBytesLE 4 wd := (append_take_drop _ _ 4 hW).1
      have g2 : (intToBytesLE 4 wd ++ (intToBytesLE 4 ht ++ payload)).drop 4
          = intToBytesLE 4 ht ++ payload := (append_take_drop _ _ 4 hW).2
      have g3 : (intToBytesLE 4 ht ++ payload).take 4 = intToBytesLE 4 ht :=
        (append_take_drop _ _ 4 hH).1
      have g4 : (intToBytesLE 4 wd ++ (intToBytesLE 4 ht ++ payload)).drop 8 = payload := by
        rw [show intToBytesLE 4 wd ++ (intToBytesLE 4 ht ++ payload)
            = (intToBytesLE 4 wd ++ intToBytesLE 4 ht) ++ payload from by
          rw [List.append_assoc]]
        exact (append_take_drop _ _ 8 (by rw [List.length_append, hW, hH])).2
      rw [g1, g2, g3, g4]
      have r0 : bytesToIntLE 4 (intToBytesLE 4 (2 : Int)) = 2 := by decide
      rw [r0, hts', hwd', hht']

/-- **C8 witness**: concrete round trips, including a zero-length and a
maximum-length (255-byte) participant identifier, and a video frame with
a negative timestamp. -/
theorem C8_wire_framing_witness :
    decodePerParticipantAudio (sendPerParticipantAudio [] [9, 8]) =
      some (5, [], [9, 8]) ∧
    decodePerParticipantAudio (sendPerParticipantAudio (List.replicate 255 7) [1]) =
      some (5, List.replicate 255 7, [1]) ∧
    decodeVideo (sendVideo (-3) [65, 66] 640 480 [0, 1]) =
      some (2, -3, [65, 66], 640, 480, [0, 1]) :=
  ⟨(C8_wire_framing.1 [] [9, 8] (by decide)).2,
   (C8_wire_framing.1 (List.replicate 255 7) [1]
     (by rw [List.length_replicate])).2,
   (C8_wire_framing.2 (-3) [65, 66] 640 480 [0, 1] (by decide) (by decide) (by decide)
     (by decide) (by decide) (by decide) (by decide)).2⟩
